import Mathlib

/- Shallow embedding of the smx-dasm-rs SourcePawn SMX container parser and
   disassembler (sources: src/errors, src/headers, src/sections, src/v1types,
   src/rtti, src/v1disassembler, src/file), together with theorems about its
   behaviour.

   Modelling conventions:
   * Byte buffers (`Vec<u8>`, `&[u8]`) are `List Nat`; every cell produced by
     the loaders is < 256.
   * `i32` values are `Int`; where Rust casts or wraps, an explicit
     twos-complement conversion (`ofU32`, `toU32`, `toU8`) is applied.
   * Fallible operations (Rust `Result<T>`) return `Except Error`; `Error.Io`
     payloads are dropped since only the variant is ever inspected.
   * Rust panics (out-of-range indexing, `unwrap` on `None`) surface as a
     distinguished `panicked` outcome where a claim depends on them.
   * Source `while`/`for` loops are rendered as structural recursion, either
     on a list suffix, or on the iteration count the source computes, or on an
     explicit fuel that provably cannot run out for the arguments the embedded
     callers supply. -/

/-- Error taxonomy of src/errors/mod.rs. -/
inductive Error where
  | ioErr
  | invalidMagic
  | invalidSize
  | invalidOffset
  | invalidIndex
  | offsetOverflow
  | sizeOverflow
  | other (msg : String)
deriving DecidableEq

/-- Reading of an unsigned 32-bit pattern as a Rust `i32` (twos complement). -/
def ofU32 (n : Nat) : Int := if n < 2 ^ 31 then (n : Int) else (n : Int) - 2 ^ 32

/-- Rust `as u32` on an `i32` value. -/
def toU32 (x : Int) : Nat := (x % (2 ^ 32 : Int)).toNat

/-- Rust `as u8` on an `i32` value (truncation to the low byte). -/
def toU8 (x : Int) : Nat := toU32 x % 256

/-- Rust bitwise `&` on two `i32` values. -/
def i32land (a b : Int) : Int := ofU32 (Nat.land (toU32 a) (toU32 b))

/-- Rust `i32` division (truncation toward zero). -/
def i32div (a b : Int) : Int := Int.tdiv a b

/-- Read one byte at a cursor position; end of buffer is a `byteorder`
unexpected-EOF, surfaced as `Error::Io`. -/
def readU8 (data : List Nat) (pos : Nat) : Except Error Nat :=
  match data.get? pos with
  | some b => .ok b
  | none => .error .ioErr

/-- Little-endian `read_u16` at a cursor position. -/
def readU16le (data : List Nat) (pos : Nat) : Except Error Nat := do
  let b0 ← readU8 data pos
  let b1 ← readU8 data (pos + 1)
  pure (b0 + 256 * b1)

/-- Little-endian `read_u32` at a cursor position. -/
def readU32le (data : List Nat) (pos : Nat) : Except Error Nat := do
  let b0 ← readU8 data pos
  let b1 ← readU8 data (pos + 1)
  let b2 ← readU8 data (pos + 2)
  let b3 ← readU8 data (pos + 3)
  pure (b0 + 256 * b1 + 65536 * b2 + 16777216 * b3)

/-- Little-endian `read_i32` at a cursor position. -/
def readI32le (data : List Nat) (pos : Nat) : Except Error Int :=
  (readU32le data pos).map ofU32

/-- An `i32` read at an `i32` position (`Cursor::seek(SeekFrom::Start(p as u64))`
followed by `read_i32`): a negative position becomes a huge `u64` offset and the
read fails with EOF. -/
def readI32at (data : List Nat) (pos : Int) : Except Error Int :=
  if pos < 0 then .error .ioErr else readI32le data pos.toNat

/-- SMXNameTable (src/sections/mod.rs): a window `[data_offset, data_offset+size)`
on the image `data`, with the `names` memoization cache (`HashMap<i32, String>`,
rendered as an association list; the resolved strings are kept as raw byte
sequences, abstracting the `String::from_utf8_lossy` presentation step). The
lazily computed `extends` root list plays no role in the claims and is omitted. -/
structure SMXNameTable where
  data : List Nat
  dataOffset : Int
  size : Int
  names : List (Int × List Nat)
deriving DecidableEq

/-- SMXNameTable::new - a fresh table has an empty cache. -/
def SMXNameTable.new (data : List Nat) (dataOffset size : Int) : SMXNameTable :=
  ⟨data, dataOffset, size, []⟩

/-- The read loop of `string_at`: `for i in index..size { b = data[(data_offset
+ i) as usize]; if b == 0 break; push b }`, rendered on the iteration count
`size - index` with `pos = data_offset + index`. An out-of-range read (a Rust
panic) yields 0 here; every claim about this loop restricts to in-range reads. -/
def stringScan (data : List Nat) (pos : Int) : Nat → List Nat
  | 0 => []
  | n + 1 =>
    let b := data.getD pos.toNat 0
    if b = 0 then [] else b :: stringScan data (pos + 1) n

/-- SMXNameTable::string_at (src/sections/mod.rs, lines 74-94): consult the
cache, reject `index >= size` with InvalidIndex, otherwise scan bytes up to the
first NUL or the end of the section window. The (possibly updated) table is
returned alongside to make the cache observable. -/
def SMXNameTable.string_at (t : SMXNameTable) (index : Int) :
    Except Error (List Nat) × SMXNameTable :=
  match t.names.lookup index with
  | some s => (.ok s, t)
  | none =>
    if index ≥ t.size then (.error .invalidIndex, t)
    else (.ok (stringScan t.data (t.dataOffset + index) (t.size - index).toNat), t)

theorem stringScan_eq_takeWhile (n : Nat) :
    ∀ (data : List Nat) (pos : Int), 0 ≤ pos → pos.toNat + n ≤ data.length →
      stringScan data pos n = ((data.drop pos.toNat).take n).takeWhile (fun b => b != 0) := by
  induction n with
  | zero => intro data pos _ _; simp [stringScan]
  | succ n ih =>
    intro data pos hpos hlen
    have hlt : pos.toNat < data.length := by omega
    have hdrop : data.drop pos.toNat = data[pos.toNat] :: data.drop (pos.toNat + 1) :=
      List.drop_eq_getElem_cons hlt
    have hgetD : data.getD pos.toNat 0 = data[pos.toNat] := by
      simp [List.getD_eq_getElem?_getD, List.getElem?_eq_getElem hlt]
    have hsucc : (pos + 1).toNat = pos.toNat + 1 := by omega
    rw [stringScan, hdrop]
    by_cases hb : data[pos.toNat] = 0
    · have hc : data.getD pos.toNat 0 = 0 := by rw [hgetD]; exact hb
      rw [if_pos hc, List.take_succ_cons, List.takeWhile_cons]
      simp [hb]
    · have hc : ¬data.getD pos.toNat 0 = 0 := by rw [hgetD]; exact hb
      have hne : (data[pos.toNat] != 0) = true := by simpa using hb
      rw [if_neg hc, List.take_succ_cons, List.takeWhile_cons, hne, hgetD,
        ih data (pos + 1) (by omega) (by omega), hsucc]
      simp

/-- C10: for `0 ≤ index < size` (on a table whose cache is empty, which is an
invariant: no code path ever inserts into the cache), `string_at` succeeds and
returns exactly the bytes of the section window `[data_offset, data_offset+size)`
from position `index` up to (excluding) the first NUL, stopping at the window
end when no NUL occurs. The right-hand side is a function of the window alone,
so the result never depends on (never reads) a byte outside the window. -/
theorem string_at_window (t : SMXNameTable) (index : Int)
    (hcache : t.names = [])
    (h0 : 0 ≤ index) (hlt : index < t.size)
    (hoff : 0 ≤ t.dataOffset)
    (hlen : (t.dataOffset + t.size).toNat ≤ t.data.length) :
    (t.string_at index).1 =
      .ok ((((t.data.drop t.dataOffset.toNat).take t.size.toNat).drop index.toNat).takeWhile
            (fun b => b != 0)) := by
  have hsz : 0 ≤ t.size := le_of_lt (lt_of_le_of_lt h0 hlt)
  have e1 : (t.dataOffset + index).toNat = t.dataOffset.toNat + index.toNat := by omega
  have e2 : (t.size - index).toNat = t.size.toNat - index.toNat := by omega
  have e3 : (t.dataOffset + t.size).toNat = t.dataOffset.toNat + t.size.toNat := by omega
  have hscan : stringScan t.data (t.dataOffset + index) (t.size - index).toNat
      = ((t.data.drop (t.dataOffset + index).toNat).take (t.size - index).toNat).takeWhile
          (fun b => b != 0) := by
    apply stringScan_eq_takeWhile
    · omega
    · omega
  have hwin : ((t.data.drop t.dataOffset.toNat).take t.size.toNat).drop index.toNat
      = (t.data.drop (t.dataOffset + index).toNat).take (t.size - index).toNat := by
    rw [List.drop_take, List.drop_drop, e1, e2]
  rw [SMXNameTable.string_at, hcache]
  simp only [List.lookup_nil]
  rw [if_neg (by omega)]
  simp only [hscan, hwin]

/-- C10 witness: the theorem applied to a concrete table over the pool
"foo\0" at index 0. -/
theorem string_at_window_witness :
    ((SMXNameTable.new [102, 111, 111, 0] 0 4).string_at 0).1 = .ok [102, 111, 111] := by
  have h := string_at_window (SMXNameTable.new [102, 111, 111, 0] 0 4) 0 rfl
    (by decide) (by decide) (by decide) (by decide)
  simpa using h

/-- C4 (code-bug evidence): `string_at` never writes to its memoization cache.
The first conjunct shows the table (hence the cache) is returned unchanged by
every call; the second evaluates a successful lookup on a concrete table built
over the pool "foo\0" and observes that the cache is still empty afterwards,
contradicting the claim that the cache maps the index to the returned string
after a successful call. -/
theorem string_at_never_memoizes :
    (∀ (t : SMXNameTable) (index : Int), (t.string_at index).2 = t) ∧
    ((SMXNameTable.new [102, 111, 111, 0] 0 4).string_at 0).1 = .ok [102, 111, 111] ∧
    ((SMXNameTable.new [102, 111, 111, 0] 0 4).string_at 0).2.names = [] := by
  refine ⟨?_, rfl, rfl⟩
  intro t index
  rw [SMXNameTable.string_at]
  rcases t.names.lookup index with _ | s
  · by_cases h : index ≥ t.size
    · simp [h]
    · simp [h]
  · rfl

/-- Section directory entry (src/headers/mod.rs). The resolved section name is
kept as the raw byte sequence of the NUL-terminated string. -/
structure SectionEntry where
  name_offset : Int
  data_offset : Int
  size : Int
  name : List Nat
deriving DecidableEq

/-- Row of the .publics table (src/v1types/mod.rs). -/
structure PublicEntry where
  address : Nat
  name_offset : Int
  name : List Nat
deriving DecidableEq

/-- Row of the .natives table. -/
structure NativeEntry where
  name_offset : Int
  name : List Nat
deriving DecidableEq

/-- Row of the .pubvars table. -/
structure PubvarEntry where
  address : Nat
  name_offset : Int
  name : List Nat
deriving DecidableEq

/-- Row of the .tags table. -/
structure TagEntry where
  tag : Nat
  name_offset : Int
  name : List Nat
deriving DecidableEq

/-- Row of the .dbg.files table. -/
structure DebugFileEntry where
  address : Nat
  name_offset : Int
  name : List Nat
deriving DecidableEq

/-- Row of the .dbg.lines table. -/
structure DebugLineEntry where
  address : Nat
  line : Nat
deriving DecidableEq

def PublicEntry.SIZE : Int := 8

def NativeEntry.SIZE : Int := 4

def PubvarEntry.SIZE : Int := 8

def TagEntry.SIZE : Int := 8

def DebugFileEntry.SIZE : Int := 8

def DebugLineEntry.SIZE : Int := 8

/-- Row-reading loop of PublicEntry::new: each of `count` iterations reads a
`u32` address and an `i32` name offset from the section data at the cursor and
resolves the name through the (threaded) name table. -/
def PublicEntry.rows (data : List Nat) (names : SMXNameTable) (pos : Nat) :
    Nat → Except Error (List PublicEntry × SMXNameTable)
  | 0 => .ok ([], names)
  | n + 1 => do
    let address ← readU32le data pos
    let nameOffset ← readI32le data (pos + 4)
    match names.string_at nameOffset with
    | (.error e, _) => .error e
    | (.ok s, names1) => do
      let (rest, names2) ← PublicEntry.rows data names1 (pos + 8) n
      pure (⟨address, nameOffset, s⟩ :: rest, names2)

/-- PublicEntry::new (src/v1types/mod.rs, lines 129-156). Note the size check
is a bitwise AND against SIZE (`section.size & 8 != 0`), not a remainder test,
exactly as in the source. The row count is `(section.size / SIZE) as usize`
(sections carry `size ≥ 0` by header validation, so the cast is the identity). -/
def PublicEntry.new (data : List Nat) (sec : SectionEntry) (names : SMXNameTable) :
    Except Error (List PublicEntry) :=
  if i32land sec.size PublicEntry.SIZE ≠ 0 then .error .invalidSize
  else (PublicEntry.rows data names 0 (i32div sec.size PublicEntry.SIZE).toNat).map Prod.fst

/-- Row-reading loop of NativeEntry::new: each iteration reads one `i32` name
offset. -/
def NativeEntry.rows (data : List Nat) (names : SMXNameTable) (pos : Nat) :
    Nat → Except Error (List NativeEntry × SMXNameTable)
  | 0 => .ok ([], names)
  | n + 1 => do
    let nameOffset ← readI32le data pos
    match names.string_at nameOffset with
    | (.error e, _) => .error e
    | (.ok s, names1) => do
      let (rest, names2) ← NativeEntry.rows data names1 (pos + 4) n
      pure (⟨nameOffset, s⟩ :: rest, names2)

/-- NativeEntry::new (src/v1types/mod.rs): size check `section.size & 4 != 0`. -/
def NativeEntry.new (data : List Nat) (sec : SectionEntry) (names : SMXNameTable) :
    Except Error (List NativeEntry) :=
  if i32land sec.size NativeEntry.SIZE ≠ 0 then .error .invalidSize
  else (NativeEntry.rows data names 0 (i32div sec.size NativeEntry.SIZE).toNat).map Prod.fst

/-- Row-reading loop of PubvarEntry::new (same row shape as publics). -/
def PubvarEntry.rows (data : List Nat) (names : SMXNameTable) (pos : Nat) :
    Nat → Except Error (List PubvarEntry × SMXNameTable)
  | 0 => .ok ([], names)
  | n + 1 => do
    let address ← readU32le data pos
    let nameOffset ← readI32le data (pos + 4)
    match names.string_at nameOffset with
    | (.error e, _) => .error e
    | (.ok s, names1) => do
      let (rest, names2) ← PubvarEntry.rows data names1 (pos + 8) n
      pure (⟨address, nameOffset, s⟩ :: rest, names2)

/-- PubvarEntry::new: size check `section.size & 8 != 0`. -/
def PubvarEntry.new (data : List Nat) (sec : SectionEntry) (names : SMXNameTable) :
    Except Error (List PubvarEntry) :=
  if i32land sec.size PubvarEntry.SIZE ≠ 0 then .error .invalidSize
  else (PubvarEntry.rows data names 0 (i32div sec.size PubvarEntry.SIZE).toNat).map Prod.fst

/-- Row-reading loop of TagEntry::new: each iteration reads a `u32` tag and an
`i32` name offset (8 bytes per row). -/
def TagEntry.rows (data : List Nat) (names : SMXNameTable) (pos : Nat) :
    Nat → Except Error (List TagEntry × SMXNameTable)
  | 0 => .ok ([], names)
  | n + 1 => do
    let tag ← readU32le data pos
    let nameOffset ← readI32le data (pos + 4)
    match names.string_at nameOffset with
    | (.error e, _) => .error e
    | (.ok s, names1) => do
      let (rest, names2) ← TagEntry.rows data names1 (pos + 8) n
      pure (⟨tag, nameOffset, s⟩ :: rest, names2)

/-- TagEntry::new (src/v1types/mod.rs, lines 280-307). The source checks and
counts with `NativeEntry::SIZE` (4) although a tag row occupies 8 bytes:
`section.size & 4 != 0` rejects, and the count is `section.size / 4`. -/
def TagEntry.new (data : List Nat) (sec : SectionEntry) (names : SMXNameTable) :
    Except Error (List TagEntry) :=
  if i32land sec.size NativeEntry.SIZE ≠ 0 then .error .invalidSize
  else (TagEntry.rows data names 0 (i32div sec.size NativeEntry.SIZE).toNat).map Prod.fst

/-- Row-reading loop of DebugFileEntry::new (same row shape as publics). -/
def DebugFileEntry.rows (data : List Nat) (names : SMXNameTable) (pos : Nat) :
    Nat → Except Error (List DebugFileEntry × SMXNameTable)
  | 0 => .ok ([], names)
  | n + 1 => do
    let address ← readU32le data pos
    let nameOffset ← readI32le data (pos + 4)
    match names.string_at nameOffset with
    | (.error e, _) => .error e
    | (.ok s, names1) => do
      let (rest, names2) ← DebugFileEntry.rows data names1 (pos + 8) n
      pure (⟨address, nameOffset, s⟩ :: rest, names2)

/-- DebugFileEntry::new: size check `section.size & 8 != 0`. -/
def DebugFileEntry.new (data : List Nat) (sec : SectionEntry) (names : SMXNameTable) :
    Except Error (List DebugFileEntry) :=
  if i32land sec.size DebugFileEntry.SIZE ≠ 0 then .error .invalidSize
  else (DebugFileEntry.rows data names 0 (i32div sec.size DebugFileEntry.SIZE).toNat).map
    Prod.fst

/-- Row-reading loop of DebugLineEntry::new: each iteration reads a `u32`
address and a `u32` line (no name resolution). -/
def DebugLineEntry.rows (data : List Nat) (pos : Nat) :
    Nat → Except Error (List DebugLineEntry)
  | 0 => .ok []
  | n + 1 => do
    let address ← readU32le data pos
    let line ← readU32le data (pos + 4)
    let rest ← DebugLineEntry.rows data (pos + 8) n
    pure (⟨address, line⟩ :: rest)

/-- DebugLineEntry::new: size check `section.size & 8 != 0`. -/
def DebugLineEntry.new (data : List Nat) (sec : SectionEntry) :
    Except Error (List DebugLineEntry) :=
  if i32land sec.size DebugLineEntry.SIZE ≠ 0 then .error .invalidSize
  else DebugLineEntry.rows data 0 (i32div sec.size DebugLineEntry.SIZE).toNat

/-- C1 (code-bug evidence): the fixed-row constructors test
`section.size & SIZE != 0` (bitwise AND) where the spec demands a
multiple-of-SIZE test, and TagEntry::new uses NativeEntry::SIZE (4) for both
the check and the row count although its rows occupy 8 bytes. Concretely:
a .publics section of size 24 - three well-formed 8-byte rows - is rejected
with InvalidSize (24 & 8 = 8); a .publics section of size 4 - not a multiple
of 8 - is accepted and decodes 0 rows (4 & 8 = 0, 4 / 8 = 0); a .natives
section of size 4 - exactly one row - is rejected (4 & 4 = 4); a .dbg.lines
section of size 8 - one row - is rejected (8 & 8 = 8); and a .tags section of
size 8 - one well-formed row - fails with an EOF Io error because 8 & 4 = 0
passes the check but the count 8 / 4 = 2 reads past the section data. -/
theorem fixed_row_size_check_is_bitand :
    PublicEntry.new (List.replicate 24 0) ⟨0, 24, 24, []⟩ (SMXNameTable.new [97, 0] 0 2)
      = .error .invalidSize ∧
    PublicEntry.new [0, 0, 0, 0] ⟨0, 24, 4, []⟩ (SMXNameTable.new [97, 0] 0 2)
      = .ok [] ∧
    NativeEntry.new [0, 0, 0, 0] ⟨0, 24, 4, []⟩ (SMXNameTable.new [97, 0] 0 2)
      = .error .invalidSize ∧
    DebugLineEntry.new [1, 0, 0, 0, 7, 0, 0, 0] ⟨0, 24, 8, []⟩
      = .error .invalidSize ∧
    TagEntry.new [1, 0, 0, 0, 0, 0, 0, 0] ⟨0, 24, 8, []⟩ (SMXNameTable.new [97, 0] 0 2)
      = .error .ioErr := by
  refine ⟨rfl, rfl, rfl, rfl, rfl⟩

/-- Loop of CB::decode_u32 (src/rtti/mod.rs, lines 80-100), on the byte-list
suffix starting at the cursor. Returns the decoded value and the number of
bytes consumed; `none` models the indexing panic when the cursor runs off the
buffer. In the source `(b & 0x7f) << shift` is `u8` arithmetic: the shifted
group is truncated mod 256 (with the shift amount masked mod 8, the
release-build semantics of an overflowing `u8` shift) before the `as u32`
widening - so groups beyond the first lose any bits above bit 7. -/
def decodeU32Go : List Nat → Nat → Nat → Option (Nat × Nat)
  | [], _, _ => none
  | b :: rest, value, shift =>
    let value := value ||| ((((b % 256) &&& 0x7f) <<< (shift % 8)) % 256)
    if (b % 256) &&& 0x80 = 0 then some (value, 1)
    else match decodeU32Go rest value (shift + 7) with
      | none => none
      | some (v, k) => some (v, k + 1)

/-- CB::decode_u32: decode at `*offset` and advance the cursor past the
consumed bytes. Returns `(value as i32, new offset)`; `none` models the
out-of-bounds indexing panic (including a negative offset, whose `as usize`
is out of range). -/
def CB.decode_u32 (bytes : List Nat) (offset : Int) : Option (Int × Int) :=
  if offset < 0 then none
  else match decodeU32Go (bytes.drop offset.toNat) 0 0 with
    | none => none
    | some (v, k) => some (ofU32 v, offset + (k : Int))

/-- Specification-side denotation of a little-endian base-128 group sequence
(7 value bits per byte, least-significant group first). Stated from the
specification text, for comparison with the source decoder. -/
def lebSpecValue : List Nat → Nat
  | [] => 0
  | b :: rest => (b &&& 0x7f) + 128 * lebSpecValue rest

/-- Specification-side well-formedness of an unsigned LEB128 encoding: every
byte is below 256, the continuation bit is set on every byte except the last,
and clear on the last. -/
def lebSpecEncoding : List Nat → Bool
  | [] => false
  | [b] => b < 128
  | b :: rest => (128 ≤ b && b < 256) && lebSpecEncoding rest

/-- C2 (code-bug evidence): `[0x80, 0x02]` is a valid unsigned LEB128 encoding
of 256, and decode_u32 at offset 0 does advance the cursor by the 2 encoding
bytes, but it returns the value 0: the contribution of the second group
`(0x02 & 0x7f) << 7` is computed in `u8` arithmetic and truncates to 0 before
the widening cast. Single-group encodings still decode correctly: `[0x05]`
gives 5 and advances by 1. -/
theorem decode_u32_truncates_second_group :
    lebSpecEncoding [0x80, 0x02] = true ∧
    lebSpecValue [0x80, 0x02] = 256 ∧
    CB.decode_u32 [0x80, 0x02] 0 = some (0, 2) ∧
    CB.decode_u32 [0x05] 0 = some (5, 1) := by
  refine ⟨rfl, rfl, rfl, rfl⟩

/-- Bind reduction on `Except` (ok). -/
theorem exbind_ok {α β : Type} (a : α) (f : α → Except Error β) :
    (Except.ok a >>= f) = f a := rfl

/-- Bind reduction on `Except` (error). -/
theorem exbind_err {α β : Type} (e : Error) (f : α → Except Error β) :
    ((Except.error e : Except Error α) >>= f) = .error e := rfl

/-- Bind reduction on `Except` (pure). -/
theorem expure_bind {α β : Type} (a : α) (f : α → Except Error β) :
    ((pure a : Except Error α) >>= f) = f a := rfl

theorem readU8_mono (data extra : List Nat) (pos b : Nat) (h : readU8 data pos = .ok b) :
    readU8 (data ++ extra) pos = .ok b := by
  unfold readU8 at h ⊢
  cases hg : data.get? pos with
  | none => rw [hg] at h; exact absurd h (by simp)
  | some c =>
    rw [hg] at h
    have hlt : pos < data.length := by
      by_contra hge
      rw [List.get?_eq_none.mpr (by omega)] at hg
      exact absurd hg (by simp)
    rw [List.get?_append hlt, hg]
    exact h

theorem readU16le_mono (data extra : List Nat) (pos v : Nat)
    (h : readU16le data pos = .ok v) : readU16le (data ++ extra) pos = .ok v := by
  unfold readU16le at h ⊢
  cases h0 : readU8 data pos with
  | error e => rw [h0, exbind_err] at h; exact absurd h (by simp)
  | ok b0 =>
    rw [h0, exbind_ok] at h
    rw [readU8_mono data extra pos b0 h0, exbind_ok]
    cases h1 : readU8 data (pos + 1) with
    | error e => rw [h1, exbind_err] at h; exact absurd h (by simp)
    | ok b1 =>
      rw [h1, exbind_ok] at h
      rw [readU8_mono data extra (pos + 1) b1 h1, exbind_ok]
      exact h

theorem readU32le_mono (data extra : List Nat) (pos v : Nat)
    (h : readU32le data pos = .ok v) : readU32le (data ++ extra) pos = .ok v := by
  unfold readU32le at h ⊢
  cases h0 : readU8 data pos with
  | error e => rw [h0, exbind_err] at h; exact absurd h (by simp)
  | ok b0 =>
    rw [h0, exbind_ok] at h
    rw [readU8_mono data extra pos b0 h0, exbind_ok]
    cases h1 : readU8 data (pos + 1) with
    | error e => rw [h1, exbind_err] at h; exact absurd h (by simp)
    | ok b1 =>
      rw [h1, exbind_ok] at h
      rw [readU8_mono data extra (pos + 1) b1 h1, exbind_ok]
      cases h2 : readU8 data (pos + 2) with
      | error e => rw [h2, exbind_err] at h; exact absurd h (by simp)
      | ok b2 =>
        rw [h2, exbind_ok] at h
        rw [readU8_mono data extra (pos + 2) b2 h2, exbind_ok]
        cases h3 : readU8 data (pos + 3) with
        | error e => rw [h3, exbind_err] at h; exact absurd h (by simp)
        | ok b3 =>
          rw [h3, exbind_ok] at h
          rw [readU8_mono data extra (pos + 3) b3 h3, exbind_ok]
          exact h

theorem readI32le_mono (data extra : List Nat) (pos : Nat) (v : Int)
    (h : readI32le data pos = .ok v) : readI32le (data ++ extra) pos = .ok v := by
  unfold readI32le at h ⊢
  cases h0 : readU32le data pos with
  | error e => rw [h0] at h; exact absurd h (by simp [Except.map])
  | ok u =>
    rw [h0] at h
    rw [readU32le_mono data extra pos u h0]
    exact h

/-- Byte rendering of the section name ".dbg.natives". -/
def dbgNativesName : List Nat := [46, 100, 98, 103, 46, 110, 97, 116, 105, 118, 101, 115]

/-- Read-CString loop (`read_cstring` in src/headers/mod.rs) on the buffer
suffix at the cursor: bytes up to the first NUL; running off the buffer is an
EOF Io error. -/
def readCStringGo : List Nat → Except Error (List Nat)
  | [] => .error .ioErr
  | b :: rest => if b = 0 then .ok [] else (readCStringGo rest).map (b :: ·)

/-- Read a NUL-terminated string starting at `pos`. -/
def readCString (data : List Nat) (pos : Nat) : Except Error (List Nat) :=
  readCStringGo (data.drop pos)

/-- Section-directory loop of SMXHeader::new (src/headers/mod.rs, lines
196-239): read `section_count` entries of 12 bytes starting at image offset 24,
validating `name_offset ≥ 0`, `data_offset ≥ 24` (OffsetOverflow) and
`size ≥ 0` (SizeOverflow), resolving each name from the string table and
recording whether any section is named ".dbg.natives". -/
def sectionLoop (image : List Nat) (sto : Int) (pos : Nat) :
    Nat → Except Error (List SectionEntry × Bool)
  | 0 => .ok ([], false)
  | n + 1 => do
    let nameOffset ← readI32le image pos
    if nameOffset < 0 then throw Error.offsetOverflow
    let dataOffset ← readI32le image (pos + 4)
    if dataOffset < 24 then throw Error.offsetOverflow
    let size ← readI32le image (pos + 8)
    if size < 0 then throw Error.sizeOverflow
    let name ← readCString image (sto + nameOffset).toNat
    let (rest, found) ← sectionLoop image sto (pos + 12) n
    pure (⟨nameOffset, dataOffset, size, name⟩ :: rest, ((name == dbgNativesName) || found))

/-- Parsed header (src/headers/mod.rs). `data` is the expanded image. -/
structure SMXHeader where
  magic : Nat
  version : Nat
  compressionGZ : Bool
  disk_size : Int
  image_size : Int
  section_count : Nat
  string_table_offset : Int
  data_offset : Int
  data : List Nat
  sections : List SectionEntry
  debug_packed : Bool
deriving DecidableEq

/-- SMXHeader::new (src/headers/mod.rs, lines 127-254). `inflate` abstracts the
external `flate2` zlib decoder applied to `input[data_offset..]` in the GZ
case. The image slices `input[24..image_size]` / `input[24..data_offset]` are
rendered with `take`/`drop` (Rust panics when the bound exceeds the buffer;
no claim depends on that case). -/
def SMXHeader.new (inflate : List Nat → Except Error (List Nat)) (input : List Nat) :
    Except Error SMXHeader := do
  let magic ← readU32le input 0
  if magic ≠ 0x53504646 then throw Error.invalidMagic
  let version ← readU16le input 4
  let compression ← readU8 input 6
  let gz := compression == 1
  let disk_size ← readI32le input 7
  if disk_size < 24 then throw Error.invalidSize
  let image_size ← readI32le input 11
  if image_size < 24 then throw Error.invalidSize
  let section_count ← readU8 input 15
  let sto ← readI32le input 16
  if sto < 24 then throw Error.invalidOffset
  let dofs ← readI32le input 20
  if dofs < 24 then throw Error.invalidOffset
  let pdata ←
    if gz then do
      let tail ← inflate (input.drop dofs.toNat)
      pure (input.take 24 ++ ((input.take dofs.toNat).drop 24) ++ tail)
    else
      pure (input.take 24 ++ ((input.take image_size.toNat).drop 24))
  let (sections, foundDbg) ← sectionLoop pdata sto 24 section_count
  pure ⟨0x53504646, version, gz, disk_size, image_size, section_count, sto, dofs, pdata,
    sections, (version == 0x0101) && !foundDbg⟩

/-- C8: the header loader checks, in order: the magic (InvalidMagic when it is
not 0x53504646), then disk_size and image_size (InvalidSize when < 24), then
string_table_offset and data_offset (InvalidOffset when < 24). Each failure is
decided by the 24-byte header prefix alone: the result is the same for every
continuation `extra` of the buffer and every decompressor `inflate`, i.e. the
error is produced before any section directory entry is read. -/
theorem header_validation_order (input : List Nat) (magic : Nat)
    (dsz isz sto dofs : Int)
    (h24 : 24 ≤ input.length)
    (hm : readU32le input 0 = .ok magic)
    (hd : readI32le input 7 = .ok dsz)
    (hi : readI32le input 11 = .ok isz)
    (hs : readI32le input 16 = .ok sto)
    (ho : readI32le input 20 = .ok dofs) :
    (magic ≠ 0x53504646 →
      ∀ inflate extra, SMXHeader.new inflate (input ++ extra) = .error .invalidMagic) ∧
    (magic = 0x53504646 → dsz < 24 →
      ∀ inflate extra, SMXHeader.new inflate (input ++ extra) = .error .invalidSize) ∧
    (magic = 0x53504646 → ¬dsz < 24 → isz < 24 →
      ∀ inflate extra, SMXHeader.new inflate (input ++ extra) = .error .invalidSize) ∧
    (magic = 0x53504646 → ¬dsz < 24 → ¬isz < 24 → sto < 24 →
      ∀ inflate extra, SMXHeader.new inflate (input ++ extra) = .error .invalidOffset) ∧
    (magic = 0x53504646 → ¬dsz < 24 → ¬isz < 24 → ¬sto < 24 → dofs < 24 →
      ∀ inflate extra, SMXHeader.new inflate (input ++ extra) = .error .invalidOffset) := by
  obtain ⟨ver, hv⟩ : ∃ v, readU16le input 4 = .ok v := by
    unfold readU16le readU8
    rw [List.get?_eq_get (by omega : 4 < input.length),
      List.get?_eq_get (by omega : 5 < input.length)]
    exact ⟨_, rfl⟩
  obtain ⟨cmp, hc⟩ : ∃ v, readU8 input 6 = .ok v := by
    unfold readU8
    rw [List.get?_eq_get (by omega : 6 < input.length)]
    exact ⟨_, rfl⟩
  obtain ⟨scount, hn⟩ : ∃ v, readU8 input 15 = .ok v := by
    unfold readU8
    rw [List.get?_eq_get (by omega : 15 < input.length)]
    exact ⟨_, rfl⟩
  have hm' := fun extra => readU32le_mono input extra 0 magic hm
  have hv' := fun extra => readU16le_mono input extra 4 ver hv
  have hc' := fun extra => readU8_mono input extra 6 cmp hc
  have hd' := fun extra => readI32le_mono input extra 7 dsz hd
  have hi' := fun extra => readI32le_mono input extra 11 isz hi
  have hn' := fun extra => readU8_mono input extra 15 scount hn
  have hs' := fun extra => readI32le_mono input extra 16 sto hs
  have ho' := fun extra => readI32le_mono input extra 20 dofs ho
  refine ⟨?_, ?_, ?_, ?_, ?_⟩
  · intro hmagic inflate extra
    rw [SMXHeader.new, hm' extra, exbind_ok, if_pos hmagic]
    rfl
  · intro hmagic hsize inflate extra
    rw [SMXHeader.new, hm' extra, exbind_ok, if_neg (by simp [hmagic]), expure_bind,
      hv' extra, exbind_ok, hc' extra, exbind_ok, hd' extra, exbind_ok, if_pos hsize]
    rfl
  · intro hmagic hd24 hsize inflate extra
    rw [SMXHeader.new, hm' extra, exbind_ok, if_neg (by simp [hmagic]), expure_bind,
      hv' extra, exbind_ok, hc' extra, exbind_ok, hd' extra, exbind_ok, if_neg hd24,
      expure_bind, hi' extra, exbind_ok, if_pos hsize]
    rfl
  · intro hmagic hd24 hi24 hoff inflate extra
    rw [SMXHeader.new, hm' extra, exbind_ok, if_neg (by simp [hmagic]), expure_bind,
      hv' extra, exbind_ok, hc' extra, exbind_ok, hd' extra, exbind_ok, if_neg hd24,
      expure_bind, hi' extra, exbind_ok, if_neg hi24, expure_bind, hn' extra, exbind_ok,
      hs' extra, exbind_ok, if_pos hoff]
    rfl
  · intro hmagic hd24 hi24 hs24 hoff inflate extra
    rw [SMXHeader.new, hm' extra, exbind_ok, if_neg (by simp [hmagic]), expure_bind,
      hv' extra, exbind_ok, hc' extra, exbind_ok, hd' extra, exbind_ok, if_neg hd24,
      expure_bind, hi' extra, exbind_ok, if_neg hi24, expure_bind, hn' extra, exbind_ok,
      hs' extra, exbind_ok, if_neg hs24, expure_bind, ho' extra, exbind_ok, if_pos hoff]
    rfl

/-- C8 witness: a 24-byte all-zero buffer has magic 0 and is rejected with
InvalidMagic, for an arbitrary decompressor. -/
theorem header_validation_order_witness :
    SMXHeader.new (fun _ => .ok []) (List.replicate 24 0) = .error .invalidMagic := by
  have h := (header_validation_order (List.replicate 24 0) 0 0 0 0 0 (by simp)
    rfl rfl rfl rfl rfl).1 (by decide) (fun _ => .ok []) []
  simpa using h

/-- Midpoint bounds for the binary-search step: when `low ≥ -1` and
`high - low > 1`, the truncating midpoint `(low + high) / 2` lies strictly
between `low` and `high` (in all reachable states `low + high ≥ 0`, so
truncating and flooring division agree). -/
theorem bsearch_mid_bounds (low high : Int) (hlow : -1 ≤ low) (hgap : 1 < high - low) :
    low < i32div (low + high) 2 ∧ i32div (low + high) 2 < high := by
  have hnn : 0 ≤ low + high := by omega
  rw [i32div, Int.tdiv_eq_ediv hnn (by norm_num)]
  omega

/-- Binary-search loop shared by SMXDebugFilesTable::find_file and
SMXDebugLinesTable::find_file (src/sections/mod.rs, lines 459-478 and
515-534), which are textually identical up to the entry type; it is rendered
once over the address column: `low = -1; high = len; while high - low > 1
{ mid = (low + high) / 2; if a[mid] <= addr { low = mid } else { high = mid } };
low`. The loop runs on a fuel that decreases by one per iteration; the
callers supply `len + 1`, which cannot run out because `high - low` strictly
shrinks (its exhaustion branch returns `low`, the value an exiting iteration
would return). An out-of-range `a[mid]` (a Rust panic) reads 0; the invariant
`-1 ≤ low < high ≤ len` keeps `mid` in range. -/
def bsearchGo (addrs : List Nat) (addr : Nat) : Nat → Int → Int → Int
  | 0, low, _ => low
  | fuel + 1, low, high =>
    if 1 < high - low then
      let mid := i32div (low + high) 2
      if addrs.getD mid.toNat 0 ≤ addr then bsearchGo addrs addr fuel mid high
      else bsearchGo addrs addr fuel low mid
    else low

/-- SMXDebugFilesTable::find_file: right-biased binary search over the entry
addresses; returns the name of `entries[low]`, or None when `low` stays -1. -/
def SMXDebugFilesTable.find_file (entries : List DebugFileEntry) (addr : Nat) :
    Option (List Nat) :=
  let low := bsearchGo (entries.map (fun e => e.address)) addr (entries.length + 1) (-1)
    (entries.length : Int)
  if low = -1 then none
  else some (entries.getD low.toNat ⟨0, 0, []⟩).name

/-- SMXDebugLinesTable::find_file: same search; returns
`entries[low].line + 1` in u32 arithmetic, which wraps to 0 when the stored
line is 0xFFFFFFFF (in a debug build the addition panics there instead). -/
def SMXDebugLinesTable.find_file (entries : List DebugLineEntry) (addr : Nat) :
    Option Nat :=
  let low := bsearchGo (entries.map (fun e => e.address)) addr (entries.length + 1) (-1)
    (entries.length : Int)
  if low = -1 then none
  else some (((entries.getD low.toNat ⟨0, 0⟩).line + 1) % 2 ^ 32)

theorem bsearchGo_spec (addrs : List Nat) (addr : Nat) :
    ∀ (fuel : Nat) (low high : Int),
      (high - low).toNat ≤ fuel + 1 →
      -1 ≤ low → low < high → high ≤ (addrs.length : Int) →
      (low = -1 ∨ addrs.getD low.toNat 0 ≤ addr) →
      (high = (addrs.length : Int) ∨ addr < addrs.getD high.toNat 0) →
      -1 ≤ bsearchGo addrs addr fuel low high ∧
      bsearchGo addrs addr fuel low high < (addrs.length : Int) ∧
      (bsearchGo addrs addr fuel low high = -1 ∨
        addrs.getD (bsearchGo addrs addr fuel low high).toNat 0 ≤ addr) ∧
      (bsearchGo addrs addr fuel low high + 1 = (addrs.length : Int) ∨
        addr < addrs.getD (bsearchGo addrs addr fuel low high + 1).toNat 0) := by
  intro fuel
  induction fuel with
  | zero =>
    intro low high hfuel hlow hlt hhigh hinvl hinvh
    have hexit : high = low + 1 := by omega
    rw [bsearchGo]
    refine ⟨hlow, by omega, hinvl, ?_⟩
    rw [← hexit]
    exact hinvh
  | succ fuel ih =>
    intro low high hfuel hlow hlt hhigh hinvl hinvh
    rw [bsearchGo]
    by_cases hgap : 1 < high - low
    · rw [if_pos hgap]
      obtain ⟨hm1, hm2⟩ := bsearch_mid_bounds low high hlow hgap
      by_cases hcmp : addrs.getD (i32div (low + high) 2).toNat 0 ≤ addr
      · rw [if_pos hcmp]
        exact ih (i32div (low + high) 2) high (by omega) (by omega) hm2 hhigh
          (Or.inr hcmp) hinvh
      · rw [if_neg hcmp]
        exact ih low (i32div (low + high) 2) (by omega) hlow hm1 (by omega) hinvl
          (Or.inr (by omega))
    · rw [if_neg hgap]
      have hexit : high = low + 1 := by omega
      refine ⟨hlow, by omega, hinvl, ?_⟩
      rw [← hexit]
      exact hinvh

/-- Characterization of the full search as run by both find_file variants:
on a sorted address column it returns -1 exactly when every address exceeds
the query, and otherwise lands on an in-range index whose address is ≤ the
query and is the greatest such address. -/
theorem bsearch_characterization (addrs : List Nat) (addr : Nat)
    (hsorted : ∀ i j : Nat, i ≤ j → j < addrs.length →
      addrs.getD i 0 ≤ addrs.getD j 0) :
    (bsearchGo addrs addr (addrs.length + 1) (-1) (addrs.length : Int) = -1 ↔
      ∀ a ∈ addrs, addr < a) ∧
    (bsearchGo addrs addr (addrs.length + 1) (-1) (addrs.length : Int) ≠ -1 →
      0 ≤ bsearchGo addrs addr (addrs.length + 1) (-1) (addrs.length : Int) ∧
      bsearchGo addrs addr (addrs.length + 1) (-1) (addrs.length : Int) <
        (addrs.length : Int) ∧
      addrs.getD (bsearchGo addrs addr (addrs.length + 1) (-1)
        (addrs.length : Int)).toNat 0 ≤ addr ∧
      ∀ a ∈ addrs, a ≤ addr →
        a ≤ addrs.getD (bsearchGo addrs addr (addrs.length + 1) (-1)
          (addrs.length : Int)).toNat 0) := by
  have hgd : ∀ k : Nat, k < addrs.length → addrs.getD k 0 ∈ addrs := by
    intro k hk
    rw [List.getD_eq_getElem?_getD, List.getElem?_eq_getElem hk]
    exact List.getElem_mem hk
  have hidx : ∀ a ∈ addrs, ∃ k : Nat, k < addrs.length ∧ addrs.getD k 0 = a := by
    intro a ha
    obtain ⟨k, hk, hek⟩ := List.mem_iff_getElem.mp ha
    exact ⟨k, hk, by rw [List.getD_eq_getElem?_getD, List.getElem?_eq_getElem hk]; exact hek⟩
  obtain ⟨hr1, hr2, hr3, hr4⟩ := bsearchGo_spec addrs addr (addrs.length + 1) (-1)
    (addrs.length : Int) (by omega) (by omega) (by omega) (by omega) (Or.inl rfl)
    (Or.inl rfl)
  set r := bsearchGo addrs addr (addrs.length + 1) (-1) (addrs.length : Int) with hrdef
  constructor
  · constructor
    · intro hneg a ha
      obtain ⟨k, hk, hek⟩ := hidx a ha
      rcases hr4 with h4 | h4
      · omega
      · rw [hneg] at h4
        have h0k : addrs.getD 0 0 ≤ addrs.getD k 0 := hsorted 0 k (by omega) hk
        have : ((-1 : Int) + 1).toNat = 0 := by omega
        rw [this] at h4
        omega
    · intro hall
      by_contra hne
      rcases hr3 with h3 | h3
      · exact hne h3
      · have hmem := hgd r.toNat (by omega)
        have := hall _ hmem
        omega
  · intro hne
    have hr0 : 0 ≤ r := by omega
    refine ⟨hr0, hr2, ?_, ?_⟩
    · rcases hr3 with h3 | h3
      · exact absurd h3 hne
      · exact h3
    · intro a ha hale
      obtain ⟨k, hk, hek⟩ := hidx a ha
      by_cases hkr : k ≤ r.toNat
      · have := hsorted k r.toNat hkr (by omega)
        omega
      · exfalso
        rcases hr4 with h4 | h4
        · omega
        · have hrk : (r + 1).toNat ≤ k := by omega
          have := hsorted (r + 1).toNat k hrk hk
          omega

theorem bsearch_on_map {α : Type} (l : List α) (dflt : α) (f : α → Nat) (addr : Nat)
    (hs : ∀ i j : Nat, i ≤ j → j < l.length → f (l.getD i dflt) ≤ f (l.getD j dflt)) :
    (bsearchGo (l.map f) addr (l.length + 1) (-1) (l.length : Int) = -1 ↔
      ∀ e ∈ l, addr < f e) ∧
    (∀ k : Nat,
      (bsearchGo (l.map f) addr (l.length + 1) (-1) (l.length : Int)).toNat = k →
      bsearchGo (l.map f) addr (l.length + 1) (-1) (l.length : Int) ≠ -1 →
      k < l.length ∧ f (l.getD k dflt) ≤ addr ∧
        ∀ e ∈ l, f e ≤ addr → f e ≤ f (l.getD k dflt)) := by
  have hlen : (l.map f).length = l.length := List.length_map l f
  have hgd : ∀ k : Nat, k < l.length → (l.map f).getD k 0 = f (l.getD k dflt) := by
    intro k hk
    rw [List.getD_eq_getElem?_getD, List.getD_eq_getElem?_getD, List.getElem?_map,
      List.getElem?_eq_getElem hk]
    simp
  have hsorted : ∀ i j : Nat, i ≤ j → j < (l.map f).length →
      (l.map f).getD i 0 ≤ (l.map f).getD j 0 := by
    intro i j hij hj
    rw [hlen] at hj
    rw [hgd i (by omega), hgd j hj]
    exact hs i j hij hj
  obtain ⟨hiff, hpos⟩ := bsearch_characterization (l.map f) addr hsorted
  rw [hlen] at hiff hpos
  constructor
  · rw [hiff]
    constructor
    · intro hall e he
      exact hall (f e) (List.mem_map_of_mem f he)
    · intro hall a ha
      obtain ⟨e, he, hfe⟩ := List.mem_map.mp ha
      rw [← hfe]
      exact hall e he
  · intro k hk hne
    obtain ⟨h0, hlt, hle, hmax⟩ := hpos hne
    rw [hk] at hle
    have hklen : k < l.length := by omega
    rw [hgd k hklen] at hle
    refine ⟨hklen, hle, ?_⟩
    intro e he hea
    have := hmax (f e) (List.mem_map_of_mem f he) hea
    rw [hk, hgd k hklen] at this
    exact this

/-- C7 (amended): on tables sorted in ascending address order, both find_file
variants return None exactly when the address of every entry exceeds addr (in
particular on an empty table), and otherwise return the entry at the
right-most index whose address is ≤ addr - by sortedness, an entry whose
address is the greatest address ≤ addr; the debug-lines variant returns that
line field of that entry plus one in u32 arithmetic, i.e. (line + 1) mod 2^32
(equal to line + 1 whenever line < 0xFFFFFFFF). -/
theorem find_file_greatest_le (fents : List DebugFileEntry)
    (lents : List DebugLineEntry) (addr : Nat)
    (hfs : ∀ i j : Nat, i ≤ j → j < fents.length →
      (fents.getD i ⟨0, 0, []⟩).address ≤ (fents.getD j ⟨0, 0, []⟩).address)
    (hls : ∀ i j : Nat, i ≤ j → j < lents.length →
      (lents.getD i ⟨0, 0⟩).address ≤ (lents.getD j ⟨0, 0⟩).address) :
    (SMXDebugFilesTable.find_file fents addr = none ↔
      ∀ e ∈ fents, addr < e.address) ∧
    (∀ s, SMXDebugFilesTable.find_file fents addr = some s →
      ∃ k : Nat, k < fents.length ∧ s = (fents.getD k ⟨0, 0, []⟩).name ∧
        (fents.getD k ⟨0, 0, []⟩).address ≤ addr ∧
        ∀ e ∈ fents, e.address ≤ addr →
          e.address ≤ (fents.getD k ⟨0, 0, []⟩).address) ∧
    (SMXDebugLinesTable.find_file lents addr = none ↔
      ∀ e ∈ lents, addr < e.address) ∧
    (∀ v, SMXDebugLinesTable.find_file lents addr = some v →
      ∃ k : Nat, k < lents.length ∧
        v = ((lents.getD k ⟨0, 0⟩).line + 1) % 2 ^ 32 ∧
        (lents.getD k ⟨0, 0⟩).address ≤ addr ∧
        ∀ e ∈ lents, e.address ≤ addr →
          e.address ≤ (lents.getD k ⟨0, 0⟩).address) := by
  obtain ⟨hfiff, hfpos⟩ := bsearch_on_map fents ⟨0, 0, []⟩ (fun e => e.address) addr hfs
  obtain ⟨hliff, hlpos⟩ := bsearch_on_map lents ⟨0, 0⟩ (fun e => e.address) addr hls
  refine ⟨?_, ?_, ?_, ?_⟩
  · constructor
    · intro hnone
      simp only [SMXDebugFilesTable.find_file] at hnone
      by_cases hr : bsearchGo (fents.map fun e => e.address) addr (fents.length + 1) (-1)
          (fents.length : Int) = -1
      · exact hfiff.mp hr
      · rw [if_neg hr] at hnone
        exact absurd hnone (by simp)
    · intro hall
      simp only [SMXDebugFilesTable.find_file]
      rw [if_pos (hfiff.mpr hall)]
  · intro s hsome
    simp only [SMXDebugFilesTable.find_file] at hsome
    by_cases hr : bsearchGo (fents.map fun e => e.address) addr (fents.length + 1) (-1)
        (fents.length : Int) = -1
    · rw [if_pos hr] at hsome
      exact absurd hsome (by simp)
    · rw [if_neg hr] at hsome
      obtain ⟨hk, hle, hmax⟩ := hfpos (bsearchGo (fents.map fun e => e.address) addr
        (fents.length + 1) (-1) (fents.length : Int)).toNat rfl hr
      exact ⟨_, hk, (Option.some.inj hsome).symm, hle, hmax⟩
  · constructor
    · intro hnone
      simp only [SMXDebugLinesTable.find_file] at hnone
      by_cases hr : bsearchGo (lents.map fun e => e.address) addr (lents.length + 1) (-1)
          (lents.length : Int) = -1
      · exact hliff.mp hr
      · rw [if_neg hr] at hnone
        exact absurd hnone (by simp)
    · intro hall
      simp only [SMXDebugLinesTable.find_file]
      rw [if_pos (hliff.mpr hall)]
  · intro v hsome
    simp only [SMXDebugLinesTable.find_file] at hsome
    by_cases hr : bsearchGo (lents.map fun e => e.address) addr (lents.length + 1) (-1)
        (lents.length : Int) = -1
    · rw [if_pos hr] at hsome
      exact absurd hsome (by simp)
    · rw [if_neg hr] at hsome
      obtain ⟨hk, hle, hmax⟩ := hlpos (bsearchGo (lents.map fun e => e.address) addr
        (lents.length + 1) (-1) (lents.length : Int)).toNat rfl hr
      exact ⟨_, hk, (Option.some.inj hsome).symm, hle, hmax⟩

/-- C7 witness: the amended theorem applied to the sorted two-entry tables
with addresses 10 and 20 at query address 15: the files variant answers the
name of the address-10 entry, the lines variant its line plus 1. -/
theorem find_file_greatest_le_witness :
    ∃ k : Nat, k < 2 ∧
      ([97] : List Nat) = (([⟨10, 0, [97]⟩, ⟨20, 0, [98]⟩] :
        List DebugFileEntry).getD k ⟨0, 0, []⟩).name ∧
      (([⟨10, 0, [97]⟩, ⟨20, 0, [98]⟩] : List DebugFileEntry).getD k
        ⟨0, 0, []⟩).address ≤ 15 ∧
      ∀ e ∈ ([⟨10, 0, [97]⟩, ⟨20, 0, [98]⟩] : List DebugFileEntry),
        e.address ≤ 15 → e.address ≤ (([⟨10, 0, [97]⟩, ⟨20, 0, [98]⟩] :
          List DebugFileEntry).getD k ⟨0, 0, []⟩).address := by
  have hfs : ∀ i j : Nat, i ≤ j →
      j < ([⟨10, 0, [97]⟩, ⟨20, 0, [98]⟩] : List DebugFileEntry).length →
      (([⟨10, 0, [97]⟩, ⟨20, 0, [98]⟩] : List DebugFileEntry).getD i
        ⟨0, 0, []⟩).address ≤ (([⟨10, 0, [97]⟩, ⟨20, 0, [98]⟩] :
        List DebugFileEntry).getD j ⟨0, 0, []⟩).address := by
    intro i j hij hj
    have hj2 : j < 2 := by simpa using hj
    clear hj
    interval_cases j <;> interval_cases i <;> simp
  have hls : ∀ i j : Nat, i ≤ j →
      j < ([⟨10, 5⟩, ⟨20, 9⟩] : List DebugLineEntry).length →
      (([⟨10, 5⟩, ⟨20, 9⟩] : List DebugLineEntry).getD i ⟨0, 0⟩).address ≤
      (([⟨10, 5⟩, ⟨20, 9⟩] : List DebugLineEntry).getD j ⟨0, 0⟩).address := by
    intro i j hij hj
    have hj2 : j < 2 := by simpa using hj
    clear hj
    interval_cases j <;> interval_cases i <;> simp
  exact (find_file_greatest_le [⟨10, 0, [97]⟩, ⟨20, 0, [98]⟩] [⟨10, 5⟩, ⟨20, 9⟩] 15
    hfs hls).2.1 [97] rfl

/-- C7 counterexample: the sorted single-entry lines table with address 0 and
line 0xFFFFFFFF. find_file 0 selects that entry but returns
(0xFFFFFFFF + 1) mod 2^32 = 0, not "the line field plus 1" = 0x100000000:
the u32 increment wraps (a debug build panics on the addition instead). -/
theorem find_file_line_wrap_counterexample :
    SMXDebugLinesTable.find_file [⟨0, 4294967295⟩] 0 = some 0 ∧
    (0 : Nat) ≠ 4294967295 + 1 := ⟨rfl, by decide⟩

/-- Abstract parameter kinds of the opcode descriptor table
(src/v1disassembler/mod.rs). -/
inductive V1Param where
  | constant
  | stack
  | jump
  | function
  | native
  | address
deriving DecidableEq

/-- One opcode descriptor: its ordinal and parameter kinds. The display name
(`op.to_string().replace("_",".").to_lowercase()`) is presentation-only and
carried by no claim, so it is omitted. -/
structure V1OPCodeInfo where
  opcode : Nat
  params : List V1Param
deriving DecidableEq

/-- A decoded instruction. -/
structure V1Instruction where
  address : Int
  info : V1OPCodeInfo
  params : List Int
deriving DecidableEq

/-- A discovered-function entry (src/v1types/mod.rs `CalledFunctionEntry`). -/
structure CalledFunctionEntry where
  address : Nat
  name : String
deriving DecidableEq

/-- The parts of SMXFile consulted and mutated by the disassembler: the
publics table and the (shared, append-only) discovered-functions table. -/
structure FileTables where
  publics : List PublicEntry
  calledFunctions : List CalledFunctionEntry
deriving DecidableEq

/-- Rust `format!("{:x}", n)`: minimal lowercase hexadecimal rendering
("0" for zero). `Nat.toDigits 16` produces exactly these digits. -/
def hexString (n : Nat) : String := String.mk (Nat.toDigits 16 n)

/-- SMXCalledFunctionsTable::add_function (src/sections/mod.rs, lines
171-177): push an entry with the synthetic name `sub_<lowercase hex>`. -/
def SMXCalledFunctionsTable.add_function (t : List CalledFunctionEntry) (addr : Nat) :
    List CalledFunctionEntry :=
  t ++ [⟨addr, "sub_" ++ hexString addr⟩]

/-- SMXFile::is_function_at_address (src/file/mod.rs, lines 159-179): scan the
publics, then the discovered functions, comparing each `u32` address against
`addr as u32`. -/
def SMXFile.is_function_at_address (f : FileTables) (addr : Int) : Bool :=
  f.publics.any (fun p => p.address == toU32 addr) ||
  f.calledFunctions.any (fun c => c.address == toU32 addr)

/-- Opcode descriptors 0-25 of the prep sequence. -/
def opcodeChunk0 : List V1OPCodeInfo := [
  ⟨0, []⟩,  -- ADD
  ⟨1, [.constant]⟩,  -- ADD_C
  ⟨2, [.stack]⟩,  -- ADDR_ALT
  ⟨3, [.stack]⟩,  -- ADDR_PRI
  ⟨4, []⟩,  -- AND
  ⟨5, [.constant]⟩,  -- BOUNDS
  ⟨6, []⟩,  -- BREAK
  ⟨7, [.function]⟩,  -- CALL
  ⟨8, [.constant, .address]⟩,  -- CASETBL
  ⟨9, [.address, .constant]⟩,  -- CONST
  ⟨10, [.constant]⟩,  -- CONST_ALT
  ⟨11, [.constant]⟩,  -- CONST_PRI
  ⟨12, [.stack, .constant]⟩,  -- CONST_S
  ⟨13, [.address]⟩,  -- DEC
  ⟨14, []⟩,  -- DEC_ALT
  ⟨15, []⟩,  -- DEC_I
  ⟨16, []⟩,  -- DEC_PRI
  ⟨17, [.stack]⟩,  -- DEC_S
  ⟨18, []⟩,  -- EQ
  ⟨19, [.constant]⟩,  -- EQ_C_ALT
  ⟨20, [.constant]⟩,  -- EQ_C_PRI
  ⟨21, [.constant]⟩,  -- FILL
  ⟨22, [.constant]⟩,  -- GENARRAY
  ⟨23, [.constant]⟩,  -- GENARRAY_Z
  ⟨24, [.constant]⟩,  -- HALT
  ⟨25, [.constant]⟩]  -- HEAP

/-- Opcode descriptors 26-51 of the prep sequence. -/
def opcodeChunk1 : List V1OPCodeInfo := [
  ⟨26, []⟩,  -- IDXADDR
  ⟨27, [.constant]⟩,  -- IDXADDR_B
  ⟨28, [.address]⟩,  -- INC
  ⟨29, []⟩,  -- INC_ALT
  ⟨30, []⟩,  -- INC_I
  ⟨31, []⟩,  -- INC_PRI
  ⟨32, [.stack]⟩,  -- INC_S
  ⟨33, []⟩,  -- INVERT
  ⟨34, [.jump]⟩,  -- JEQ
  ⟨35, [.jump]⟩,  -- JNEQ
  ⟨36, [.jump]⟩,  -- JNZ
  ⟨37, [.jump]⟩,  -- JSGEQ
  ⟨38, [.jump]⟩,  -- JSGRTR
  ⟨39, [.jump]⟩,  -- JSLEQ
  ⟨40, [.jump]⟩,  -- JSLESS
  ⟨41, [.jump]⟩,  -- JUMP
  ⟨42, [.jump]⟩,  -- JZER
  ⟨43, []⟩,  -- LIDX
  ⟨44, [.constant]⟩,  -- LIDX_B
  ⟨45, [.constant]⟩,  -- LOAD_ALT
  ⟨46, [.constant, .constant]⟩,  -- LOAD_BOTH
  ⟨47, []⟩,  -- LOAD_I
  ⟨48, [.constant]⟩,  -- LOAD_PRI
  ⟨49, [.stack]⟩,  -- LOAD_S_ALT
  ⟨50, [.stack, .stack]⟩,  -- LOAD_S_BOTH
  ⟨51, [.stack]⟩]  -- LOAD_S_PRI

/-- Opcode descriptors 52-77 of the prep sequence. -/
def opcodeChunk2 : List V1OPCodeInfo := [
  ⟨52, [.constant]⟩,  -- LODB_I
  ⟨53, [.stack]⟩,  -- LREF_S_ALT
  ⟨54, [.stack]⟩,  -- LREF_S_PRI
  ⟨55, []⟩,  -- MOVE_ALT
  ⟨56, []⟩,  -- MOVE_PRI
  ⟨57, [.constant]⟩,  -- MOVS
  ⟨58, []⟩,  -- NEG
  ⟨59, []⟩,  -- NEQ
  ⟨60, []⟩,  -- NOP
  ⟨61, []⟩,  -- NOT
  ⟨62, []⟩,  -- OR
  ⟨63, []⟩,  -- POP_ALT
  ⟨64, []⟩,  -- POP_PRI
  ⟨65, []⟩,  -- PROC
  ⟨66, []⟩,  -- PUSH_ALT
  ⟨67, []⟩,  -- PUSH_PRI
  ⟨68, [.address]⟩,  -- PUSH
  ⟨69, [.address, .address]⟩,  -- PUSH2
  ⟨70, [.address, .address, .address]⟩,  -- PUSH3
  ⟨71, [.address, .address, .address, .address]⟩,  -- PUSH4
  ⟨72, [.address, .address, .address, .address, .address]⟩,  -- PUSH5
  ⟨73, [.constant]⟩,  -- PUSH_C
  ⟨74, [.constant, .constant]⟩,  -- PUSH2_C
  ⟨75, [.constant, .constant, .constant]⟩,  -- PUSH3_C
  ⟨76, [.constant, .constant, .constant, .constant]⟩,  -- PUSH4_C
  ⟨77, [.constant, .constant, .constant, .constant, .constant]⟩]  -- PUSH5_C

/-- Opcode descriptors 78-103 of the prep sequence. -/
def opcodeChunk3 : List V1OPCodeInfo := [
  ⟨78, [.stack]⟩,  -- PUSH_S
  ⟨79, [.stack, .stack]⟩,  -- PUSH2_S
  ⟨80, [.stack, .stack, .stack]⟩,  -- PUSH3_S
  ⟨81, [.stack, .stack, .stack, .stack]⟩,  -- PUSH4_S
  ⟨82, [.stack, .stack, .stack, .stack, .stack]⟩,  -- PUSH5_S
  ⟨83, [.stack]⟩,  -- PUSH_ADR
  ⟨84, [.stack, .stack]⟩,  -- PUSH2_ADR
  ⟨85, [.stack, .stack, .stack]⟩,  -- PUSH3_ADR
  ⟨86, [.stack, .stack, .stack, .stack]⟩,  -- PUSH4_ADR
  ⟨87, [.stack, .stack, .stack, .stack, .stack]⟩,  -- PUSH5_ADR
  ⟨88, []⟩,  -- RETN
  ⟨89, []⟩,  -- SDIV
  ⟨90, []⟩,  -- SDIV_ALT
  ⟨91, []⟩,  -- SGEQ
  ⟨92, []⟩,  -- SGRTR
  ⟨93, []⟩,  -- SHL
  ⟨94, [.constant]⟩,  -- SHL_C_ALT
  ⟨95, [.constant]⟩,  -- SHL_C_PRI
  ⟨96, []⟩,  -- SHR
  ⟨97, [.constant]⟩,  -- SHR_C_ALT
  ⟨98, [.constant]⟩,  -- SHR_C_PRI
  ⟨99, []⟩,  -- SLEQ
  ⟨100, []⟩,  -- SLESS
  ⟨101, []⟩,  -- SMUL
  ⟨102, [.constant]⟩,  -- SMUL_C
  ⟨103, [.stack]⟩]  -- SREF_S_ALT

/-- Opcode descriptors 104-129 of the prep sequence. -/
def opcodeChunk4 : List V1OPCodeInfo := [
  ⟨104, [.stack]⟩,  -- SREF_S_PRI
  ⟨105, []⟩,  -- SSHR
  ⟨106, [.constant]⟩,  -- STACK
  ⟨107, [.constant]⟩,  -- STOR_ALT
  ⟨108, []⟩,  -- STOR_I
  ⟨109, [.constant]⟩,  -- STOR_PRI
  ⟨110, [.stack]⟩,  -- STOR_S_ALT
  ⟨111, [.stack]⟩,  -- STOR_S_PRI
  ⟨112, []⟩,  -- STRADJUST_PRI
  ⟨113, [.constant]⟩,  -- STRB_I
  ⟨114, []⟩,  -- SUB
  ⟨115, []⟩,  -- SUB_ALT
  ⟨116, []⟩,  -- SWAP_ALT
  ⟨117, []⟩,  -- SWAP_PRI
  ⟨118, [.address]⟩,  -- SWITCH
  ⟨119, [.native]⟩,  -- SYSREQ_C
  ⟨120, [.native, .constant]⟩,  -- SYSREQ_N
  ⟨121, []⟩,  -- TRACKER_POP_SETHEAP
  ⟨122, [.constant]⟩,  -- TRACKER_PUSH_C
  ⟨123, []⟩,  -- XCHG
  ⟨124, []⟩,  -- XOR
  ⟨125, [.address]⟩,  -- ZERO
  ⟨126, []⟩,  -- ZERO_ALT
  ⟨127, []⟩,  -- ZERO_PRI
  ⟨128, [.stack]⟩,  -- ZERO_S
  ⟨129, [.address, .constant, .constant]⟩]  -- REBASE

/-- The opcode descriptor table, in the exact `prep` order of the source
(src/v1disassembler/mod.rs, lines 47-176), assembled from the chunks above.
The source pushes descriptors sequentially and indexes the vector directly
with the opcode value (`opcode_list[op as usize]`), so each opcode ordinal is
its position in this sequence; the `V1OPCode` enum itself lives in the
`v1opcodes` module, which is not among the sources - the ordinal assignment
here is the one the indexing in the disassembler itself prescribes. -/
def opcode_list : List V1OPCodeInfo :=
  opcodeChunk0 ++ opcodeChunk1 ++ opcodeChunk2 ++ opcodeChunk3 ++ opcodeChunk4

def OP_CALL : Nat := 7

def OP_CASETBL : Nat := 8

def OP_PROC : Nat := 65

/-- Modelled from the spec: the ENDPROC opcode (the procedure delimiter named
by the spec alongside PROC) is absent from the descriptor table and from the
sources (its enum lives in the missing `v1opcodes` module); it is assigned the
next free ordinal. Nothing below depends on its exact value beyond being a
valid ordinal distinct from the table entries. -/
def OP_ENDPROC : Nat := 130

/-- Modelled from the spec: `V1OPCode::try_from(b)` succeeds exactly on the
ordinals of the opcode set (the 130 table entries plus ENDPROC); any other
byte makes the `.unwrap()` in the source panic. -/
def validOpcodeByte (b : Nat) : Bool := b ≤ OP_ENDPROC

/-- Disassembly outcome tags: a surfaced `Error`, a Rust panic, or exhaustion
of the loop fuel (a modelling artifact that provably cannot occur for the
fuel the embedded callers supply; see disasmLoop_no_fuelOut). -/
inductive RunErr where
  | err (e : Error)
  | panicked
  | fuelOut
deriving DecidableEq

/-- The V1Disassembler state that stays fixed across one `diassemble` call:
the image (`file.header.data`), `code_start = code.code_start()` and
`cursor_limit = code.header().code_size`. -/
structure DisasmCtx where
  data : List Nat
  codeStart : Int
  cursorLimit : Int
deriving DecidableEq

/-- V1Disassembler::read_at: seek to `code_start + offset` and read an i32. -/
def V1Disassembler.read_at (ctx : DisasmCtx) (offset : Int) : Except Error Int :=
  readI32at ctx.data (ctx.codeStart + offset)

/-- The `for i in 0..ncases` loop of the CASETBL branch: each iteration reads
a case value and a jump target and stores them at params[2+2i], params[2+2i+1].
Rendered on the iteration count (`ncases as usize`, 0 when ncases < 0, exactly
the Rust range length); `i` is the source loop variable. -/
def casesLoop (ctx : DisasmCtx) (cursor : Int) (params : List Int) (i : Int) :
    Nat → Except Error (List Int × Int)
  | 0 => .ok (params, cursor)
  | k + 1 => do
    let v ← V1Disassembler.read_at ctx cursor
    let t ← V1Disassembler.read_at ctx (cursor + 4)
    casesLoop ctx (cursor + 8) ((params.set (2 + 2 * i).toNat v).set (2 + 2 * i + 1).toNat t)
      (i + 1) k

/-- The `for i in 0..insn.info.params.len()` loop of the generic branch: read
one i32 per declared parameter into params[i]. -/
def paramsLoop (ctx : DisasmCtx) (cursor : Int) (params : List Int) (i : Nat) :
    Nat → Except Error (List Int × Int)
  | 0 => .ok (params, cursor)
  | k + 1 => do
    let v ← V1Disassembler.read_at ctx cursor
    paramsLoop ctx (cursor + 4) (params.set i v) (i + 1) k

/-- One iteration of the `while self.cursor < self.cursor_limit` body of
diassemble_internal (src/v1disassembler/mod.rs, lines 230-278), at loop-top
cursor `cursor`: read the opcode; stop (`break`) on PROC/ENDPROC; panic on an
ordinal outside the descriptor table (`opcode_list[op as usize]`); decode the
CASETBL parameter block or the fixed-arity parameters; afterwards, for CALL,
append the target to the discovered-functions table unless it is already known.
Returns the emitted instruction (none for a break), the next cursor, and the
updated tables. -/
def disasmStep (ctx : DisasmCtx) (f : FileTables) (cursor : Int) :
    Except RunErr (Option V1Instruction × Int × FileTables) :=
  match V1Disassembler.read_at ctx cursor with
  | .error e => .error (.err e)
  | .ok op =>
    if op = (OP_PROC : Int) ∨ op = (OP_ENDPROC : Int) then
      .ok (none, cursor + 4, f)
    else if 0 ≤ op ∧ op.toNat < opcode_list.length then
      let info := opcode_list.getD op.toNat ⟨0, []⟩
      if op = (OP_CASETBL : Int) then
        match V1Disassembler.read_at ctx (cursor + 4) with
        | .error e => .error (.err e)
        | .ok ncases =>
          match V1Disassembler.read_at ctx (cursor + 8) with
          | .error e => .error (.err e)
          | .ok d =>
            match casesLoop ctx (cursor + 12)
                (((List.replicate ((ncases + 1) * 2).toNat 0).set 0 ncases).set 1 d) 0
                ncases.toNat with
            | .error e => .error (.err e)
            | .ok (params, cursor2) => .ok (some ⟨cursor, info, params⟩, cursor2, f)
      else
        match paramsLoop ctx (cursor + 4) (List.replicate info.params.length 0) 0
            info.params.length with
        | .error e => .error (.err e)
        | .ok (params, cursor2) =>
          if op = (OP_CALL : Int) then
            if SMXFile.is_function_at_address f (params.getD 0 0) then
              .ok (some ⟨cursor, info, params⟩, cursor2, f)
            else
              .ok (some ⟨cursor, info, params⟩, cursor2,
                ⟨f.publics,
                  SMXCalledFunctionsTable.add_function f.calledFunctions
                    (toU32 (params.getD 0 0))⟩)
          else .ok (some ⟨cursor, info, params⟩, cursor2, f)
    else .error .panicked

/-- The `while self.cursor < self.cursor_limit` loop, on an explicit fuel that
decreases once per iteration; `diassemble_internal` supplies fuel that cannot
run out because every iteration advances the cursor by at least 4 (see
disasmLoop_no_fuelOut). -/
def disasmLoop (ctx : DisasmCtx) : Nat → FileTables → Int → List V1Instruction →
    Except RunErr (List V1Instruction × FileTables)
  | 0, _, _, _ => .error .fuelOut
  | fuel + 1, f, cursor, acc =>
    if cursor < ctx.cursorLimit then
      match disasmStep ctx f cursor with
      | .error e => .error e
      | .ok (none, _, f1) => .ok (acc, f1)
      | .ok (some insn, cursor1, f1) => disasmLoop ctx fuel f1 cursor1 (acc ++ [insn])
    else .ok (acc, f)

/-- V1Disassembler::diassemble_internal (src/v1disassembler/mod.rs, lines
223-281): `read_next_op` reads an i32 at the proc offset, truncates it to `u8`
(`as u8`) and feeds it to `V1OPCode::try_from(..).unwrap()` - an invalid
ordinal panics - then requires the result to be PROC, failing otherwise with
the generic "Function does not start with PROC" error; on success the
instruction loop runs from the following word. -/
def V1Disassembler.diassemble_internal (ctx : DisasmCtx) (f : FileTables)
    (procOffset : Int) : Except RunErr (List V1Instruction × FileTables) :=
  match V1Disassembler.read_at ctx procOffset with
  | .error e => .error (.err e)
  | .ok v =>
    if validOpcodeByte (toU8 v) then
      if toU8 v ≠ OP_PROC then
        .error (.err (.other "Function does not start with PROC"))
      else
        disasmLoop ctx ((ctx.cursorLimit - (procOffset + 4)).toNat + 1) f (procOffset + 4) []
    else .error .panicked

theorem list_get?_set_self (l : List Int) (i : Nat) (a : Int) (h : i < l.length) :
    (l.set i a).get? i = some a := by
  rw [List.get?_eq_getElem?]
  rw [List.getElem?_set_self']
  rw [List.getElem?_eq_getElem h]
  rfl

theorem list_get?_set_other (l : List Int) (i j : Nat) (a : Int) (h : i ≠ j) :
    (l.set i a).get? j = l.get? j := by
  rw [List.get?_eq_getElem?, List.get?_eq_getElem?]
  rw [List.getElem?_set_ne h]

theorem casesLoop_spec (ctx : DisasmCtx) :
    ∀ (k : Nat) (cursor : Int) (params : List Int) (i : Int), 0 ≤ i →
      (2 + 2 * i).toNat + 2 * k ≤ params.length →
      ∀ out cur3, casesLoop ctx cursor params i k = .ok (out, cur3) →
        out.length = params.length ∧ cur3 = cursor + 8 * k ∧
        (∀ j : Nat, j < (2 + 2 * i).toNat → out.get? j = params.get? j) ∧
        (∀ m : Nat, m < k →
          ∃ v t, V1Disassembler.read_at ctx (cursor + 8 * m) = .ok v ∧
            V1Disassembler.read_at ctx (cursor + 8 * m + 4) = .ok t ∧
            out.get? ((2 + 2 * i).toNat + 2 * m) = some v ∧
            out.get? ((2 + 2 * i).toNat + 2 * m + 1) = some t) := by
  intro k
  induction k with
  | zero =>
    intro cursor params i hi hlen out cur3 h
    rw [casesLoop] at h
    simp only [Except.ok.injEq, Prod.mk.injEq] at h
    obtain ⟨rfl, rfl⟩ := h
    refine ⟨rfl, by omega, fun j _ => rfl, fun m hm => absurd hm (by omega)⟩
  | succ k ih =>
    intro cursor params i hi hlen out cur3 h
    rw [casesLoop] at h
    cases hv : V1Disassembler.read_at ctx cursor with
    | error e => rw [hv, exbind_err] at h; exact absurd h (by simp)
    | ok v =>
      rw [hv, exbind_ok] at h
      cases ht : V1Disassembler.read_at ctx (cursor + 4) with
      | error e => rw [ht, exbind_err] at h; exact absurd h (by simp)
      | ok t =>
        rw [ht, exbind_ok] at h
        have hbase : (2 + 2 * (i + 1)).toNat = (2 + 2 * i).toNat + 2 := by omega
        have hlen2 : (2 + 2 * (i + 1)).toNat + 2 * k ≤
            ((params.set (2 + 2 * i).toNat v).set (2 + 2 * i + 1).toNat t).length := by
          simp only [List.length_set]
          omega
        obtain ⟨ihlen, ihcur, ihold, ihpair⟩ := ih (cursor + 8)
          ((params.set (2 + 2 * i).toNat v).set (2 + 2 * i + 1).toNat t) (i + 1)
          (by omega) hlen2 out cur3 h
        have hblt : (2 + 2 * i).toNat + 1 < params.length := by omega
        have hne : (2 + 2 * i + 1).toNat = (2 + 2 * i).toNat + 1 := by omega
        refine ⟨by simpa using ihlen, by omega, ?_, ?_⟩
        · intro j hj
          rw [ihold j (by omega), hne, list_get?_set_other _ _ _ _ (by omega),
            list_get?_set_other _ _ _ _ (by omega)]
        · intro m hm
          cases m with
          | zero =>
            refine ⟨v, t, by simpa using hv, by simpa using ht, ?_, ?_⟩
            · rw [ihold ((2 + 2 * i).toNat + 0) (by omega), hne]
              rw [list_get?_set_other _ _ _ _ (by omega)]
              exact list_get?_set_self params _ v (by omega)
            · rw [ihold ((2 + 2 * i).toNat + 0 + 1) (by omega), hne]
              rw [list_get?_set_self _ _ t (by simp [List.length_set]; omega)]
          | succ m =>
            obtain ⟨v2, t2, hr1, hr2, hg1, hg2⟩ := ihpair m (by omega)
            refine ⟨v2, t2, ?_, ?_, ?_, ?_⟩
            · have hpos : cursor + 8 * ((m + 1 : Nat) : Int) = cursor + 8 + 8 * (m : Int) := by
                push_cast
                ring
              rw [hpos]
              exact hr1
            · have hpos : cursor + 8 * ((m + 1 : Nat) : Int) + 4
                  = cursor + 8 + 8 * (m : Int) + 4 := by
                push_cast
                ring
              rw [hpos]
              exact hr2
            · have hidx : (2 + 2 * i).toNat + 2 * (m + 1)
                  = (2 + 2 * (i + 1)).toNat + 2 * m := by omega
              rw [hidx]
              exact hg1
            · have hidx : (2 + 2 * i).toNat + 2 * (m + 1) + 1
                  = (2 + 2 * (i + 1)).toNat + 2 * m + 1 := by omega
              rw [hidx]
              exact hg2

set_option maxRecDepth 10000 in
theorem opcode_list_length : opcode_list.length = 130 := by rfl

/-- C5: a decoded CASETBL instruction with case count `n ≥ 0` stores exactly
`2*(n+1)` i32 parameters: params[0] is the count, params[1] the default jump
target (the i32 following the count in the stream), and params[2+2m],
params[2+2m+1] are the (value, target) pair of the m-th case, read from the stream
in order (the pair words at byte offsets 12+8m and 16+8m past the opcode);
the cursor ends just past the table and the shared tables are untouched. -/
theorem casetbl_shape (ctx : DisasmCtx) (f : FileTables) (cursor : Int) (n : Int)
    (insn : V1Instruction) (cursor2 : Int) (f2 : FileTables)
    (hcase : V1Disassembler.read_at ctx cursor = .ok ((OP_CASETBL : Nat) : Int))
    (hn : V1Disassembler.read_at ctx (cursor + 4) = .ok n)
    (hn0 : 0 ≤ n)
    (hstep : disasmStep ctx f cursor = .ok (some insn, cursor2, f2)) :
    insn.params.length = 2 * (n.toNat + 1) ∧
    insn.params.get? 0 = some n ∧
    (∀ d, V1Disassembler.read_at ctx (cursor + 8) = .ok d → insn.params.get? 1 = some d) ∧
    (∀ m : Nat, m < n.toNat →
      ∃ v t, V1Disassembler.read_at ctx (cursor + 12 + 8 * m) = .ok v ∧
        V1Disassembler.read_at ctx (cursor + 12 + 8 * m + 4) = .ok t ∧
        insn.params.get? (2 + 2 * m) = some v ∧
        insn.params.get? (2 + 2 * m + 1) = some t) ∧
    cursor2 = cursor + 12 + 8 * n ∧ f2 = f := by
  have hcond1 : ¬(((OP_CASETBL : Nat) : Int) = ((OP_PROC : Nat) : Int) ∨
      ((OP_CASETBL : Nat) : Int) = ((OP_ENDPROC : Nat) : Int)) := by decide
  have hcond2 : (0 : Int) ≤ ((OP_CASETBL : Nat) : Int) ∧
      ((OP_CASETBL : Nat) : Int).toNat < opcode_list.length := by
    refine ⟨by decide, ?_⟩
    rw [opcode_list_length]
    decide
  simp only [disasmStep, hcase] at hstep
  rw [if_neg hcond1, if_pos hcond2] at hstep
  rw [if_true] at hstep
  simp only [hn] at hstep
  cases hd : V1Disassembler.read_at ctx (cursor + 8) with
  | error e => simp only [hd] at hstep; exact absurd hstep (by simp)
  | ok d0 =>
    simp only [hd] at hstep
    cases hcl : casesLoop ctx (cursor + 12)
        (((List.replicate ((n + 1) * 2).toNat 0).set 0 n).set 1 d0) 0 n.toNat with
    | error e => simp only [hcl] at hstep; exact absurd hstep (by simp)
    | ok pr =>
      obtain ⟨prm, cur⟩ := pr
      simp only [hcl, Except.ok.injEq, Prod.mk.injEq, Option.some.injEq] at hstep
      obtain ⟨hinsn, hcur, hf⟩ := hstep
      have hplen : (((List.replicate ((n + 1) * 2).toNat 0).set 0 n).set 1 d0).length
          = ((n + 1) * 2).toNat := by
        simp [List.length_set, List.length_replicate]
      have hbound : (2 + 2 * (0 : Int)).toNat + 2 * n.toNat ≤
          (((List.replicate ((n + 1) * 2).toNat 0).set 0 n).set 1 d0).length := by
        rw [hplen]
        omega
      obtain ⟨hlen, hcur3, hold, hpair⟩ := casesLoop_spec ctx n.toNat (cursor + 12)
        (((List.replicate ((n + 1) * 2).toNat 0).set 0 n).set 1 d0) 0 le_rfl hbound
        prm cur hcl
      have hb2 : (2 + 2 * (0 : Int)).toNat = 2 := by decide
      have hrep2 : 2 ≤ ((n + 1) * 2).toNat := by omega
      refine ⟨?_, ?_, ?_, ?_, ?_, hf.symm⟩
      · rw [← hinsn]
        rw [hlen, hplen]
        omega
      · rw [← hinsn]
        rw [hold 0 (by omega)]
        rw [list_get?_set_other _ _ _ _ (by omega)]
        exact list_get?_set_self _ _ _ (by simp [List.length_replicate]; omega)
      · intro d hdd
        injection hdd with hdd
        subst hdd
        rw [← hinsn]
        rw [hold 1 (by omega)]
        exact list_get?_set_self _ _ _ (by simp [List.length_set, List.length_replicate]; omega)
      · intro m hm
        obtain ⟨v, t, hr1, hr2, hg1, hg2⟩ := hpair m hm
        rw [hb2] at hg1 hg2
        exact ⟨v, t, by
          have : cursor + 12 + 8 * (m : Int) = cursor + 12 + 8 * (m : Int) := rfl
          exact hr1, hr2, by rw [← hinsn]; exact hg1, by rw [← hinsn]; exact hg2⟩
      · rw [← hcur, hcur3]
        omega

set_option maxRecDepth 40000 in
/-- C5 witness: the theorem applied to the concrete stream
[CASETBL, 1, 100, 5, 20]: one case, default target 100, pair (5, 20). -/
theorem casetbl_shape_witness :
    ([1, 100, 5, 20] : List Int).length = 2 * ((1 : Int).toNat + 1) ∧
    ([1, 100, 5, 20] : List Int).get? 0 = some 1 := by
  have h := casetbl_shape
    ⟨[8,0,0,0, 1,0,0,0, 100,0,0,0, 5,0,0,0, 20,0,0,0], 0, 100⟩ ⟨[], []⟩ 0 1
    ⟨0, ⟨8, [V1Param.constant, V1Param.address]⟩, [1, 100, 5, 20]⟩ 20 ⟨[], []⟩
    rfl rfl (by decide) rfl
  exact ⟨h.1, h.2.1⟩

/-- C6: when a CALL instruction is decoded with target parameter `a` (the
single stored parameter of the instruction), the discovered-functions table is
unchanged when some publics entry or discovered-functions entry already
carries the address `a as u32`; otherwise exactly one entry is appended, with
that address and the name "sub_" followed by its minimal lowercase hexadecimal
rendering; the publics table is never modified. -/
theorem call_discovery (ctx : DisasmCtx) (f : FileTables) (cursor a : Int)
    (insn : V1Instruction) (cursor2 : Int) (f2 : FileTables)
    (hop : V1Disassembler.read_at ctx cursor = .ok ((OP_CALL : Nat) : Int))
    (hparam : V1Disassembler.read_at ctx (cursor + 4) = .ok a)
    (hstep : disasmStep ctx f cursor = .ok (some insn, cursor2, f2)) :
    insn.params = [a] ∧ cursor2 = cursor + 8 ∧ f2.publics = f.publics ∧
    (((∃ p ∈ f.publics, p.address = toU32 a) ∨
        (∃ c ∈ f.calledFunctions, c.address = toU32 a)) →
      f2.calledFunctions = f.calledFunctions) ∧
    (((∀ p ∈ f.publics, p.address ≠ toU32 a) ∧
        (∀ c ∈ f.calledFunctions, c.address ≠ toU32 a)) →
      f2.calledFunctions =
        f.calledFunctions ++ [⟨toU32 a, "sub_" ++ hexString (toU32 a)⟩]) := by
  have hcond1 : ¬(((OP_CALL : Nat) : Int) = ((OP_PROC : Nat) : Int) ∨
      ((OP_CALL : Nat) : Int) = ((OP_ENDPROC : Nat) : Int)) := by decide
  have hcond2 : (0 : Int) ≤ ((OP_CALL : Nat) : Int) ∧
      ((OP_CALL : Nat) : Int).toNat < opcode_list.length := by
    refine ⟨by decide, ?_⟩
    rw [opcode_list_length]
    decide
  have hcond3 : ¬(((OP_CALL : Nat) : Int) = ((OP_CASETBL : Nat) : Int)) := by decide
  have hinfo : opcode_list.getD ((OP_CALL : Nat) : Int).toNat ⟨0, []⟩
      = ⟨7, [V1Param.function]⟩ := by rfl
  have hpl : paramsLoop ctx (cursor + 4) (List.replicate 1 0) 0 1
      = .ok ([a], cursor + 4 + 4) := by
    rw [paramsLoop, hparam, exbind_ok, paramsLoop]
    rfl
  simp only [disasmStep, hop] at hstep
  rw [if_neg hcond1, if_pos hcond2, if_neg hcond3] at hstep
  simp only [hinfo, List.length_cons, List.length_nil, hpl] at hstep
  have hbool : SMXFile.is_function_at_address f (([a] : List Int).getD 0 0)
      = SMXFile.is_function_at_address f a := rfl
  rw [hbool, if_true] at hstep
  by_cases hknown : SMXFile.is_function_at_address f a
  · rw [if_pos hknown] at hstep
    simp only [Except.ok.injEq, Prod.mk.injEq, Option.some.injEq] at hstep
    obtain ⟨hinsn, hcur, hf⟩ := hstep
    refine ⟨by rw [← hinsn], by omega, by rw [← hf], fun _ => by rw [← hf], ?_⟩
    intro ⟨hp, hc⟩
    exfalso
    rw [SMXFile.is_function_at_address] at hknown
    rcases Bool.or_eq_true_iff .. |>.mp hknown with h | h
    · obtain ⟨p, hpm, hpe⟩ := List.any_eq_true.mp h
      exact hp p hpm (by simpa using hpe)
    · obtain ⟨c, hcm, hce⟩ := List.any_eq_true.mp h
      exact hc c hcm (by simpa using hce)
  · rw [if_neg hknown] at hstep
    simp only [Except.ok.injEq, Prod.mk.injEq, Option.some.injEq] at hstep
    obtain ⟨hinsn, hcur, hf⟩ := hstep
    refine ⟨by rw [← hinsn], by omega, by rw [← hf], ?_, ?_⟩
    · intro hk
      exfalso
      apply hknown
      rw [SMXFile.is_function_at_address]
      rcases hk with ⟨p, hpm, hpe⟩ | ⟨c, hcm, hce⟩
      · exact Bool.or_eq_true_iff .. |>.mpr (Or.inl (List.any_eq_true.mpr ⟨p, hpm, by simpa using hpe⟩))
      · exact Bool.or_eq_true_iff .. |>.mpr (Or.inr (List.any_eq_true.mpr ⟨c, hcm, by simpa using hce⟩))
    · intro _
      rw [← hf]
      rfl

set_option maxRecDepth 40000 in
/-- C6 witness: the theorem applied to the stream [CALL, 16] against publics
= [address 0] and an empty discovered table: the appended table is exactly
[(16, "sub_10")]. -/
theorem call_discovery_witness :
    (⟨[⟨0, 0, []⟩], [⟨16, "sub_10"⟩]⟩ : FileTables).calledFunctions
      = ([] : List CalledFunctionEntry) ++ [⟨toU32 16, "sub_" ++ hexString (toU32 16)⟩] := by
  have h := call_discovery ⟨[7, 0, 0, 0, 16, 0, 0, 0], 0, 100⟩ ⟨[⟨0, 0, []⟩], []⟩ 0 16
    ⟨0, ⟨7, [V1Param.function]⟩, [16]⟩ 8 ⟨[⟨0, 0, []⟩], [⟨16, "sub_10"⟩]⟩ rfl rfl rfl
  exact h.2.2.2.2 ⟨by decide, by decide⟩

theorem readU8_error (data : List Nat) (pos : Nat) (e : Error)
    (h : readU8 data pos = .error e) : e = .ioErr := by
  unfold readU8 at h
  cases hg : data.get? pos with
  | none => rw [hg] at h; injection h with h; exact h.symm
  | some b => rw [hg] at h; exact absurd h (by simp)

theorem readU32le_error (data : List Nat) (pos : Nat) (e : Error)
    (h : readU32le data pos = .error e) : e = .ioErr := by
  unfold readU32le at h
  cases h0 : readU8 data pos with
  | error e2 =>
    rw [h0, exbind_err] at h
    injection h with h
    rw [← h]
    exact readU8_error data pos e2 h0
  | ok b0 =>
    rw [h0, exbind_ok] at h
    cases h1 : readU8 data (pos + 1) with
    | error e2 =>
      rw [h1, exbind_err] at h
      injection h with h
      rw [← h]
      exact readU8_error data (pos + 1) e2 h1
    | ok b1 =>
      rw [h1, exbind_ok] at h
      cases h2 : readU8 data (pos + 2) with
      | error e2 =>
        rw [h2, exbind_err] at h
        injection h with h
        rw [← h]
        exact readU8_error data (pos + 2) e2 h2
      | ok b2 =>
        rw [h2, exbind_ok] at h
        cases h3 : readU8 data (pos + 3) with
        | error e2 =>
          rw [h3, exbind_err] at h
          injection h with h
          rw [← h]
          exact readU8_error data (pos + 3) e2 h3
        | ok b3 =>
          rw [h3, exbind_ok] at h
          exact absurd h (by simp [pure, Except.pure])

theorem read_at_error (ctx : DisasmCtx) (off : Int) (e : Error)
    (h : V1Disassembler.read_at ctx off = .error e) : e = .ioErr := by
  rw [V1Disassembler.read_at, readI32at] at h
  by_cases hneg : ctx.codeStart + off < 0
  · rw [if_pos hneg] at h
    injection h with h
    exact h.symm
  · rw [if_neg hneg, readI32le] at h
    cases hu : readU32le ctx.data (ctx.codeStart + off).toNat with
    | error e2 =>
      rw [hu] at h
      injection h with h
      rw [← h]
      exact readU32le_error _ _ _ hu
    | ok u => rw [hu] at h; exact absurd h (by simp [Except.map])

theorem casesLoop_error (ctx : DisasmCtx) :
    ∀ (k : Nat) (cursor : Int) (params : List Int) (i : Int) (e : Error),
      casesLoop ctx cursor params i k = .error e → e = .ioErr := by
  intro k
  induction k with
  | zero =>
    intro cursor params i e h
    rw [casesLoop] at h
    exact absurd h (by simp)
  | succ k ih =>
    intro cursor params i e h
    rw [casesLoop] at h
    cases hv : V1Disassembler.read_at ctx cursor with
    | error e2 =>
      rw [hv, exbind_err] at h
      injection h with h
      rw [← h]
      exact read_at_error ctx cursor e2 hv
    | ok v =>
      rw [hv, exbind_ok] at h
      cases ht : V1Disassembler.read_at ctx (cursor + 4) with
      | error e2 =>
        rw [ht, exbind_err] at h
        injection h with h
        rw [← h]
        exact read_at_error ctx (cursor + 4) e2 ht
      | ok t =>
        rw [ht, exbind_ok] at h
        exact ih _ _ _ _ h

theorem paramsLoop_error (ctx : DisasmCtx) :
    ∀ (k : Nat) (cursor : Int) (params : List Int) (i : Nat) (e : Error),
      paramsLoop ctx cursor params i k = .error e → e = .ioErr := by
  intro k
  induction k with
  | zero =>
    intro cursor params i e h
    rw [paramsLoop] at h
    exact absurd h (by simp)
  | succ k ih =>
    intro cursor params i e h
    rw [paramsLoop] at h
    cases hv : V1Disassembler.read_at ctx cursor with
    | error e2 =>
      rw [hv, exbind_err] at h
      injection h with h
      rw [← h]
      exact read_at_error ctx cursor e2 hv
    | ok v =>
      rw [hv, exbind_ok] at h
      exact ih _ _ _ _ h

theorem disasmStep_error (ctx : DisasmCtx) (f : FileTables) (cursor : Int) (e : RunErr)
    (h : disasmStep ctx f cursor = .error e) : e = .err .ioErr ∨ e = .panicked := by
  rw [disasmStep] at h
  cases hv : V1Disassembler.read_at ctx cursor with
  | error e2 =>
    simp only [hv] at h
    injection h with h
    left
    rw [← h, read_at_error ctx cursor e2 hv]
  | ok op =>
    simp only [hv] at h
    by_cases hpe : op = ((OP_PROC : Nat) : Int) ∨ op = ((OP_ENDPROC : Nat) : Int)
    · rw [if_pos hpe] at h
      exact absurd h (by simp)
    · rw [if_neg hpe] at h
      by_cases hval : (0 : Int) ≤ op ∧ op.toNat < opcode_list.length
      · rw [if_pos hval] at h
        by_cases hct : op = ((OP_CASETBL : Nat) : Int)
        · rw [if_pos hct] at h
          cases hn : V1Disassembler.read_at ctx (cursor + 4) with
          | error e2 =>
            simp only [hn] at h
            injection h with h
            left
            rw [← h, read_at_error ctx (cursor + 4) e2 hn]
          | ok ncases =>
            simp only [hn] at h
            cases hd : V1Disassembler.read_at ctx (cursor + 8) with
            | error e2 =>
              simp only [hd] at h
              injection h with h
              left
              rw [← h, read_at_error ctx (cursor + 8) e2 hd]
            | ok d =>
              simp only [hd] at h
              cases hcl : casesLoop ctx (cursor + 12)
                  (((List.replicate ((ncases + 1) * 2).toNat 0).set 0 ncases).set 1 d) 0
                  ncases.toNat with
              | error e2 =>
                simp only [hcl] at h
                injection h with h
                left
                rw [← h, casesLoop_error ctx _ _ _ _ e2 hcl]
              | ok pr =>
                obtain ⟨prm, cur⟩ := pr
                simp only [hcl] at h
                exact absurd h (by simp)
        · rw [if_neg hct] at h
          cases hpl : paramsLoop ctx (cursor + 4)
              (List.replicate (opcode_list.getD op.toNat ⟨0, []⟩).params.length 0) 0
              (opcode_list.getD op.toNat ⟨0, []⟩).params.length with
          | error e2 =>
            simp only [hpl] at h
            injection h with h
            left
            rw [← h, paramsLoop_error ctx _ _ _ _ e2 hpl]
          | ok pr =>
            obtain ⟨prm, cur⟩ := pr
            simp only [hpl] at h
            by_cases hcall : op = ((OP_CALL : Nat) : Int)
            · rw [if_pos hcall] at h
              by_cases hk : SMXFile.is_function_at_address f (prm.getD 0 0)
              · rw [if_pos hk] at h
                exact absurd h (by simp)
              · rw [if_neg hk] at h
                exact absurd h (by simp)
            · rw [if_neg hcall] at h
              exact absurd h (by simp)
      · rw [if_neg hval] at h
        injection h with h
        right
        exact h.symm

theorem disasmLoop_error (ctx : DisasmCtx) :
    ∀ (fuel : Nat) (f : FileTables) (cursor : Int) (acc : List V1Instruction) (e : RunErr),
      disasmLoop ctx fuel f cursor acc = .error e →
      e = .err .ioErr ∨ e = .panicked ∨ e = .fuelOut := by
  intro fuel
  induction fuel with
  | zero =>
    intro f cursor acc e h
    rw [disasmLoop] at h
    injection h with h
    right; right
    exact h.symm
  | succ fuel ih =>
    intro f cursor acc e h
    rw [disasmLoop] at h
    by_cases hlim : cursor < ctx.cursorLimit
    · rw [if_pos hlim] at h
      cases hs : disasmStep ctx f cursor with
      | error e2 =>
        simp only [hs] at h
        injection h with h
        rcases disasmStep_error ctx f cursor e2 hs with h2 | h2 <;> rw [← h, h2]
        · exact Or.inl rfl
        · exact Or.inr (Or.inl rfl)
      | ok r =>
        obtain ⟨oinsn, cursor1, f1⟩ := r
        cases oinsn with
        | none =>
          simp only [hs] at h
          exact absurd h (by simp)
        | some insn =>
          simp only [hs] at h
          exact ih f1 cursor1 (acc ++ [insn]) e h
    · rw [if_neg hlim] at h
      exact absurd h (by simp)

theorem casesLoop_cursor (ctx : DisasmCtx) :
    ∀ (k : Nat) (cursor : Int) (params : List Int) (i : Int) (out : List Int) (cur : Int),
      casesLoop ctx cursor params i k = .ok (out, cur) → cursor ≤ cur := by
  intro k
  induction k with
  | zero =>
    intro cursor params i out cur h
    rw [casesLoop] at h
    simp only [Except.ok.injEq, Prod.mk.injEq] at h
    omega
  | succ k ih =>
    intro cursor params i out cur h
    rw [casesLoop] at h
    cases hv : V1Disassembler.read_at ctx cursor with
    | error e => rw [hv, exbind_err] at h; exact absurd h (by simp)
    | ok v =>
      rw [hv, exbind_ok] at h
      cases ht : V1Disassembler.read_at ctx (cursor + 4) with
      | error e => rw [ht, exbind_err] at h; exact absurd h (by simp)
      | ok t =>
        rw [ht, exbind_ok] at h
        have := ih _ _ _ _ _ h
        omega

theorem paramsLoop_cursor (ctx : DisasmCtx) :
    ∀ (k : Nat) (cursor : Int) (params : List Int) (i : Nat) (out : List Int) (cur : Int),
      paramsLoop ctx cursor params i k = .ok (out, cur) → cursor ≤ cur := by
  intro k
  induction k with
  | zero =>
    intro cursor params i out cur h
    rw [paramsLoop] at h
    simp only [Except.ok.injEq, Prod.mk.injEq] at h
    omega
  | succ k ih =>
    intro cursor params i out cur h
    rw [paramsLoop] at h
    cases hv : V1Disassembler.read_at ctx cursor with
    | error e => rw [hv, exbind_err] at h; exact absurd h (by simp)
    | ok v =>
      rw [hv, exbind_ok] at h
      have := ih _ _ _ _ _ h
      omega

theorem disasmStep_cursor (ctx : DisasmCtx) (f : FileTables) (cursor : Int)
    (oinsn : Option V1Instruction) (cursor1 : Int) (f1 : FileTables)
    (h : disasmStep ctx f cursor = .ok (oinsn, cursor1, f1)) : cursor + 4 ≤ cursor1 := by
  rw [disasmStep] at h
  cases hv : V1Disassembler.read_at ctx cursor with
  | error e => simp only [hv] at h; exact absurd h (by simp)
  | ok op =>
    simp only [hv] at h
    by_cases hpe : op = ((OP_PROC : Nat) : Int) ∨ op = ((OP_ENDPROC : Nat) : Int)
    · rw [if_pos hpe] at h
      simp only [Except.ok.injEq, Prod.mk.injEq] at h
      omega
    · rw [if_neg hpe] at h
      by_cases hval : (0 : Int) ≤ op ∧ op.toNat < opcode_list.length
      · rw [if_pos hval] at h
        by_cases hct : op = ((OP_CASETBL : Nat) : Int)
        · rw [if_pos hct] at h
          cases hn : V1Disassembler.read_at ctx (cursor + 4) with
          | error e => simp only [hn] at h; exact absurd h (by simp)
          | ok ncases =>
            simp only [hn] at h
            cases hd : V1Disassembler.read_at ctx (cursor + 8) with
            | error e => simp only [hd] at h; exact absurd h (by simp)
            | ok d =>
              simp only [hd] at h
              cases hcl : casesLoop ctx (cursor + 12)
                  (((List.replicate ((ncases + 1) * 2).toNat 0).set 0 ncases).set 1 d) 0
                  ncases.toNat with
              | error e => simp only [hcl] at h; exact absurd h (by simp)
              | ok pr =>
                obtain ⟨prm, cur⟩ := pr
                simp only [hcl, Except.ok.injEq, Prod.mk.injEq] at h
                have := casesLoop_cursor ctx ncases.toNat (cursor + 12) _ 0 prm cur hcl
                omega
        · rw [if_neg hct] at h
          cases hpl : paramsLoop ctx (cursor + 4)
              (List.replicate (opcode_list.getD op.toNat ⟨0, []⟩).params.length 0) 0
              (opcode_list.getD op.toNat ⟨0, []⟩).params.length with
          | error e => simp only [hpl] at h; exact absurd h (by simp)
          | ok pr =>
            obtain ⟨prm, cur⟩ := pr
            simp only [hpl] at h
            have hcur := paramsLoop_cursor ctx _ (cursor + 4) _ 0 prm cur hpl
            by_cases hcall : op = ((OP_CALL : Nat) : Int)
            · rw [if_pos hcall] at h
              by_cases hk : SMXFile.is_function_at_address f (prm.getD 0 0)
              · rw [if_pos hk] at h
                simp only [Except.ok.injEq, Prod.mk.injEq] at h
                omega
              · rw [if_neg hk] at h
                simp only [Except.ok.injEq, Prod.mk.injEq] at h
                omega
            · rw [if_neg hcall] at h
              simp only [Except.ok.injEq, Prod.mk.injEq] at h
              omega
      · rw [if_neg hval] at h
        exact absurd h (by simp)

theorem disasmLoop_no_fuelOut (ctx : DisasmCtx) :
    ∀ (fuel : Nat) (f : FileTables) (cursor : Int) (acc : List V1Instruction),
      (ctx.cursorLimit - cursor).toNat < fuel →
      disasmLoop ctx fuel f cursor acc ≠ .error .fuelOut := by
  intro fuel
  induction fuel with
  | zero => intro f cursor acc hf; omega
  | succ fuel ih =>
    intro f cursor acc hf
    rw [disasmLoop]
    by_cases hlim : cursor < ctx.cursorLimit
    · rw [if_pos hlim]
      cases hs : disasmStep ctx f cursor with
      | error e =>
        intro hcontra
        injection hcontra with hcontra
        rcases disasmStep_error ctx f cursor e hs with h2 | h2 <;> rw [h2] at hcontra
        · exact absurd hcontra (by simp)
        · exact absurd hcontra (by simp)
      | ok r =>
        obtain ⟨oinsn, cursor1, f1⟩ := r
        cases oinsn with
        | none => simp
        | some insn =>
          have hmono := disasmStep_cursor ctx f cursor (some insn) cursor1 f1 hs
          exact ih f1 cursor1 (acc ++ [insn]) (by omega)
    · rw [if_neg hlim]
      simp

/-- C9 (amended): the precondition check compares only the LOW BYTE of the
first i32 (`read_next()? as u8` fed to `try_from(..).unwrap()`): when that
byte is a valid opcode ordinal different from PROC, diassemble_internal fails
with the generic error "Function does not start with PROC"; when the byte is
not a valid ordinal the unwrap panics instead of producing that error; and
when the byte equals PROC this error is never produced - the instruction loop
only fails with Io errors, panics, or the (unreachable) fuel marker. -/
theorem diassemble_proc_check (ctx : DisasmCtx) (f : FileTables) (procOffset : Int)
    (v : Int) (hread : V1Disassembler.read_at ctx procOffset = .ok v) :
    (toU8 v ≤ OP_ENDPROC → toU8 v ≠ OP_PROC →
      V1Disassembler.diassemble_internal ctx f procOffset =
        .error (.err (.other "Function does not start with PROC"))) ∧
    (OP_ENDPROC < toU8 v →
      V1Disassembler.diassemble_internal ctx f procOffset = .error .panicked) ∧
    (toU8 v = OP_PROC →
      V1Disassembler.diassemble_internal ctx f procOffset ≠
        .error (.err (.other "Function does not start with PROC"))) := by
  refine ⟨?_, ?_, ?_⟩
  · intro hle hne
    rw [V1Disassembler.diassemble_internal]
    simp only [hread]
    rw [if_pos (by simp only [validOpcodeByte, decide_eq_true_eq]; exact hle)]
    rw [if_pos hne]
  · intro hgt
    rw [V1Disassembler.diassemble_internal]
    simp only [hread]
    rw [if_neg (by simp only [validOpcodeByte, decide_eq_true_eq]; omega)]
  · intro hpe
    rw [V1Disassembler.diassemble_internal]
    simp only [hread]
    rw [if_pos (by simp only [validOpcodeByte, decide_eq_true_eq, hpe]; decide)]
    rw [if_neg (fun hh => hh hpe)]
    intro hcontra
    rcases disasmLoop_error ctx _ f _ [] _ hcontra with h2 | h2 | h2 <;> simp at h2

/-- C9 witness: the amended theorem applied to a stream whose first i32 is 88
(the RETN ordinal, valid and distinct from PROC): the generic error is
produced. -/
theorem diassemble_proc_check_witness :
    V1Disassembler.diassemble_internal ⟨[88, 0, 0, 0], 0, 4⟩ ⟨[], []⟩ 0 =
      .error (.err (.other "Function does not start with PROC")) :=
  (diassemble_proc_check ⟨[88, 0, 0, 0], 0, 4⟩ ⟨[], []⟩ 0 88 rfl).1 (by decide) (by decide)

/-- C9 counterexample: the first i32 of this stream is 321 = 0x141, which is
not the PROC opcode value (65), yet disassembly succeeds with no instructions
instead of failing with "Function does not start with PROC": the `as u8`
truncation keeps only the low byte 0x41 = 65 = PROC. -/
theorem diassemble_proc_truncation_counterexample :
    V1Disassembler.read_at ⟨[65, 1, 0, 0], 0, 4⟩ 0 = .ok 321 ∧
    (321 : Int) ≠ ((OP_PROC : Nat) : Int) ∧
    V1Disassembler.diassemble_internal ⟨[65, 1, 0, 0], 0, 4⟩ ⟨[], []⟩ 0
      = .ok ([], ⟨[], []⟩) := ⟨rfl, by decide, rfl⟩

/-- The publics pass of SMXFile::new (src/file/mod.rs, lines 100-104): for
each publics entry run `V1Disassembler::diassemble(file, codev1,
pubfun.address as i32)?` (diassemble constructs the disassembler and calls
diassemble_internal), threading the shared tables. The extra Int list is an
observation trace of the proc offsets disassembled, in order. -/
def SMXFile.disassemblePublics (ctx : DisasmCtx) (f : FileTables) :
    List PublicEntry → Except RunErr (FileTables × List Int)
  | [] => .ok (f, [])
  | p :: rest =>
    match V1Disassembler.diassemble_internal ctx f (ofU32 p.address) with
    | .error e => .error e
    | .ok (_, f1) =>
      match SMXFile.disassemblePublics ctx f1 rest with
      | .error e => .error e
      | .ok (f2, offs) => .ok (f2, ofU32 p.address :: offs)

/-- The drain pass of SMXFile::new (src/file/mod.rs, lines 106-110): a single
`for` loop over the discovered-functions entries obtained from the table when
the loop begins (`entries_ref()` is defined outside the sources; the
corresponding accessor `entries()` in src/sections/mod.rs returns a clone of
the vector, i.e. exactly this snapshot). Entries appended to the live table
during the loop are not visited - in Rust, a re-borrow of the RefCell-backed
table while iterating it would in fact panic. -/
def SMXFile.disassembleCalled (ctx : DisasmCtx) (f : FileTables) :
    List CalledFunctionEntry → Except RunErr (FileTables × List Int)
  | [] => .ok (f, [])
  | c :: rest =>
    match V1Disassembler.diassemble_internal ctx f (ofU32 c.address) with
    | .error e => .error e
    | .ok (_, f1) =>
      match SMXFile.disassembleCalled ctx f1 rest with
      | .error e => .error e
      | .ok (f2, offs) => .ok (f2, ofU32 c.address :: offs)

/-- The post-construction disassembly phase of SMXFile::new: every public,
then the drain pass over the snapshot taken after the publics pass. -/
def SMXFile.disassembleAllFunctions (ctx : DisasmCtx) (f : FileTables) :
    Except RunErr (FileTables × List Int) :=
  match SMXFile.disassemblePublics ctx f f.publics with
  | .error e => .error e
  | .ok (f1, offs1) =>
    match SMXFile.disassembleCalled ctx f1 f1.calledFunctions with
    | .error e => .error e
    | .ok (f2, offs2) => .ok (f2, offs1 ++ offs2)

theorem disassemblePublics_trace (ctx : DisasmCtx) :
    ∀ (l : List PublicEntry) (f g : FileTables) (offs : List Int),
      SMXFile.disassemblePublics ctx f l = .ok (g, offs) →
      offs = l.map (fun p => ofU32 p.address) := by
  intro l
  induction l with
  | nil =>
    intro f g offs h
    rw [SMXFile.disassemblePublics] at h
    simp only [Except.ok.injEq, Prod.mk.injEq] at h
    simp [← h.2]
  | cons p rest ih =>
    intro f g offs h
    rw [SMXFile.disassemblePublics] at h
    cases hd : V1Disassembler.diassemble_internal ctx f (ofU32 p.address) with
    | error e => simp only [hd] at h; exact absurd h (by simp)
    | ok r =>
      obtain ⟨insns, f1⟩ := r
      simp only [hd] at h
      cases hrest : SMXFile.disassemblePublics ctx f1 rest with
      | error e => simp only [hrest] at h; exact absurd h (by simp)
      | ok r2 =>
        obtain ⟨f2, offs2⟩ := r2
        simp only [hrest, Except.ok.injEq, Prod.mk.injEq] at h
        rw [List.map_cons, ← h.2, ih f1 f2 offs2 hrest]

theorem disassembleCalled_trace (ctx : DisasmCtx) :
    ∀ (l : List CalledFunctionEntry) (f g : FileTables) (offs : List Int),
      SMXFile.disassembleCalled ctx f l = .ok (g, offs) →
      offs = l.map (fun c => ofU32 c.address) := by
  intro l
  induction l with
  | nil =>
    intro f g offs h
    rw [SMXFile.disassembleCalled] at h
    simp only [Except.ok.injEq, Prod.mk.injEq] at h
    simp [← h.2]
  | cons c rest ih =>
    intro f g offs h
    rw [SMXFile.disassembleCalled] at h
    cases hd : V1Disassembler.diassemble_internal ctx f (ofU32 c.address) with
    | error e => simp only [hd] at h; exact absurd h (by simp)
    | ok r =>
      obtain ⟨insns, f1⟩ := r
      simp only [hd] at h
      cases hrest : SMXFile.disassembleCalled ctx f1 rest with
      | error e => simp only [hrest] at h; exact absurd h (by simp)
      | ok r2 =>
        obtain ⟨f2, offs2⟩ := r2
        simp only [hrest, Except.ok.injEq, Prod.mk.injEq] at h
        rw [List.map_cons, ← h.2, ih f1 f2 offs2 hrest]

/-- C3 (amended): when the disassembly phase of SMXFile::new succeeds, the
trace of disassembled proc offsets is exactly the publics in order followed
by the discovered-functions entries present when the drain loop begins (the
snapshot left by the publics pass). Every snapshot entry is disassembled, but
the drain runs only once: entries appended to the table during the drain pass
itself are never disassembled (see the accompanying counterexample). -/
theorem facade_drain_trace (ctx : DisasmCtx) (f g : FileTables) (trace : List Int)
    (h : SMXFile.disassembleAllFunctions ctx f = .ok (g, trace)) :
    ∃ f1 offs2,
      SMXFile.disassemblePublics ctx f f.publics
        = .ok (f1, f.publics.map (fun p => ofU32 p.address)) ∧
      SMXFile.disassembleCalled ctx f1 f1.calledFunctions = .ok (g, offs2) ∧
      trace = f.publics.map (fun p => ofU32 p.address)
        ++ f1.calledFunctions.map (fun c => ofU32 c.address) ∧
      ∀ c ∈ f1.calledFunctions, ofU32 c.address ∈ trace := by
  rw [SMXFile.disassembleAllFunctions] at h
  cases hp : SMXFile.disassemblePublics ctx f f.publics with
  | error e => simp only [hp] at h; exact absurd h (by simp)
  | ok r =>
    obtain ⟨f1, offs1⟩ := r
    simp only [hp] at h
    cases hc : SMXFile.disassembleCalled ctx f1 f1.calledFunctions with
    | error e => simp only [hc] at h; exact absurd h (by simp)
    | ok r2 =>
      obtain ⟨f2, offs2⟩ := r2
      simp only [hc, Except.ok.injEq, Prod.mk.injEq] at h
      obtain ⟨hg, htr⟩ := h
      have h1 := disassemblePublics_trace ctx f.publics f f1 offs1 hp
      have h2 := disassembleCalled_trace ctx f1.calledFunctions f1 f2 offs2 hc
      subst hg
      refine ⟨f1, offs2, by rw [h1], hc, by rw [← htr, h1, h2], ?_⟩
      intro c hcmem
      rw [← htr]
      apply List.mem_append_right
      rw [h2]
      exact List.mem_map_of_mem _ hcmem

/-- Concrete code memory for the C3 scenario: a public procedure at offset 0
(PROC; CALL 0x10; ENDPROC), a procedure at 0x10 (PROC; CALL 0x20; ENDPROC),
and a PROC word at 0x20; code_size 36. -/
def exCtx : DisasmCtx :=
  ⟨[65, 0, 0, 0, 7, 0, 0, 0, 16, 0, 0, 0, 130, 0, 0, 0,
    65, 0, 0, 0, 7, 0, 0, 0, 32, 0, 0, 0, 130, 0, 0, 0,
    65, 0, 0, 0], 0, 36⟩

/-- Tables for the C3 scenario: one public at address 0, no discovered
functions yet. -/
def exFile : FileTables := ⟨[⟨0, 0, []⟩], []⟩

set_option maxRecDepth 100000 in
/-- C3 counterexample: in `exCtx`/`exFile` the public at 0 calls 0x10, and
the procedure at 0x10 calls 0x20. The phase succeeds with final
discovered-functions entries [(0x10, "sub_10"), (0x20, "sub_20")] but the
trace of disassembled proc offsets is [0, 16]: entry 0x20 = 32, discovered
during the drain pass, is present in the final table yet never disassembled,
so the table is not closed under the CALL-target discovery step. -/
theorem facade_single_drain_counterexample :
    SMXFile.disassembleAllFunctions exCtx exFile
      = .ok (⟨[⟨0, 0, []⟩], [⟨16, "sub_10"⟩, ⟨32, "sub_20"⟩]⟩, [0, 16]) ∧
    ¬((32 : Int) ∈ ([0, 16] : List Int)) := ⟨rfl, by decide⟩

set_option maxRecDepth 100000 in
/-- C3 witness: the amended theorem applied to the concrete scenario. -/
theorem facade_drain_trace_witness :
    ∃ f1 offs2,
      SMXFile.disassemblePublics exCtx exFile exFile.publics
        = .ok (f1, exFile.publics.map (fun p => ofU32 p.address)) ∧
      SMXFile.disassembleCalled exCtx f1 f1.calledFunctions
        = .ok (⟨[⟨0, 0, []⟩], [⟨16, "sub_10"⟩, ⟨32, "sub_20"⟩]⟩, offs2) ∧
      ([0, 16] : List Int) = exFile.publics.map (fun p => ofU32 p.address)
        ++ f1.calledFunctions.map (fun c => ofU32 c.address) ∧
      ∀ c ∈ f1.calledFunctions, ofU32 c.address ∈ ([0, 16] : List Int) :=
  facade_drain_trace exCtx exFile ⟨[⟨0, 0, []⟩], [⟨16, "sub_10"⟩, ⟨32, "sub_20"⟩]⟩
    [0, 16] rfl
